import Mathlib

/-!
Shallow embedding of `api/template_management/liquid_validator.py`
(`LiquidTemplateValidator`) and proofs about its specification claims.

Template text is modelled as `List Char` (Python `str` restricted to
Unicode scalar values).  Regular-expression passes from the source are
hand-translated into executable scanners that mirror Python `re`
semantics (leftmost match, greedy/lazy quantifiers with backtracking)
on the fragments the source uses.  Character classes `\s` and `\w` are
modelled on their ASCII cores (every input appearing in the claims is
ASCII).  The two external capabilities — the blob-existence oracle
(`blob_service.check_blob_exists`) and the third-party python-liquid
parser used in `_validate_syntax` — are injected as configuration
fields, since both live outside this repository.
-/

namespace LiquidValidator

/-- Characters Python `str.splitlines` treats as line boundaries. -/
def isLineBreak (c : Char) : Bool :=
  c = '\n' ∨ c = '\r' ∨ c = '\x0b' ∨ c = '\x0c' ∨
  c = '\x1c' ∨ c = '\x1d' ∨ c = '\x1e' ∨ c = '\x85' ∨
  c = ' ' ∨ c = ' '

/-- Whitespace for Python `str.strip` / regex `\s` (ASCII core plus the
common Unicode members). -/
def isPySpace (c : Char) : Bool :=
  c = ' ' ∨ c = '\t' ∨ c = '\n' ∨ c = '\r' ∨ c = '\x0b' ∨ c = '\x0c' ∨
  c = '\x1c' ∨ c = '\x1d' ∨ c = '\x1e' ∨ c = '\x85' ∨ c = '\xa0' ∨
  c = ' ' ∨ c = ' '

/-- Word characters for regex `\w` (ASCII core: letters, digits, underscore). -/
def isWordChar (c : Char) : Bool :=
  ('a' ≤ c ∧ c ≤ 'z') ∨ ('A' ≤ c ∧ c ≤ 'Z') ∨ ('0' ≤ c ∧ c ≤ '9') ∨ c = '_'

def isDigitChar (c : Char) : Bool := '0' ≤ c ∧ c ≤ '9'

def isQuoteChar (c : Char) : Bool := c = '\'' ∨ c = '"'

/-- Python `str.splitlines`: split at line-break characters, `\r\n`
counting as a single boundary; a trailing break yields no empty line. -/
def splitlines : List Char → List (List Char)
  | [] => []
  | '\r' :: '\n' :: cs => [] :: splitlines cs
  | '\r' :: cs => [] :: splitlines cs
  | c :: cs =>
    if isLineBreak c then [] :: splitlines cs
    else
      match splitlines cs with
      | [] => [[c]]
      | l :: ls => (c :: l) :: ls

/-- Python `str.strip()`: drop leading and trailing whitespace. -/
def pyStrip (cs : List Char) : List Char :=
  ((cs.dropWhile isPySpace).reverse.dropWhile isPySpace).reverse

/-- Python `str.lower()` (ASCII core). -/
def lowerStr (cs : List Char) : List Char := cs.map Char.toLower

/-- UTF-8 encoded byte length of the text (`len(text.encode('utf-8'))`). -/
def utf8Len (cs : List Char) : Nat :=
  cs.foldl (fun n c =>
    n + (if c.val < 0x80 then 1 else if c.val < 0x800 then 2
         else if c.val < 0x10000 then 3 else 4)) 0

/-- Core of `countSub` with structural fuel (fuel `≥` list length gives
Python's behaviour). -/
def countSubGo (pat : List Char) : Nat → List Char → Nat
  | 0, _ => 0
  | _, [] => 0
  | fuel + 1, c :: cs =>
    if pat ≠ [] ∧ pat.isPrefixOf (c :: cs) then
      1 + countSubGo pat fuel ((c :: cs).drop pat.length)
    else countSubGo pat fuel cs

/-- Python `str.count(pat)` for non-empty `pat`: non-overlapping,
left-to-right occurrence count. -/
def countSub (pat cs : List Char) : Nat := countSubGo pat cs.length cs

/-- Substring test (`pat in text` in Python). -/
def containsSub (pat : List Char) : List Char → Bool
  | [] => pat.isEmpty
  | c :: cs => pat.isPrefixOf (c :: cs) || containsSub pat cs

/-- Python `str.split(sep)` for a one-character separator. -/
def splitOn (sep : Char) : List Char → List (List Char)
  | [] => [[]]
  | c :: cs =>
    if c = sep then [] :: splitOn sep cs
    else
      match splitOn sep cs with
      | [] => [[c]]
      | l :: ls => (c :: l) :: ls

/-- String from a character list. -/
def strOf (cs : List Char) : String := ⟨cs⟩

/-! ### Static sets of `LiquidTemplateValidator` -/

/-- `OPEN_TAGS`: open-block keyword to required closing keyword. -/
def OPEN_TAGS : List (String × String) :=
  [("if", "endif"), ("unless", "endunless"), ("for", "endfor"),
   ("case", "endcase"), ("capture", "endcapture"),
   ("tablerow", "endtablerow"), ("comment", "endcomment")]

/-- `ALLOWED_FILTERS`: standard plus FHIR-converter filter names. -/
def ALLOWED_FILTERS : List String :=
  ["strip", "lstrip", "rstrip", "upcase", "downcase", "capitalize", "append",
   "prepend", "replace", "replace_first", "remove", "remove_first", "truncate",
   "truncatewords", "strip_html", "strip_newlines", "newline_to_br", "escape",
   "escape_once", "url_encode", "url_decode", "slice", "split",
   "join", "first", "last", "concat", "map", "reverse", "sort", "sort_natural",
   "uniq", "where", "size", "compact",
   "abs", "ceil", "floor", "round", "plus", "minus", "times", "divided_by",
   "modulo", "at_least", "at_most",
   "date", "format_as_date_time",
   "default",
   "get_first_segments",
   "get_segment_lists",
   "get_related_segment_list",
   "get_property_value",
   "add_to_date_time",
   "to_json_string",
   "batch_render",
   "to_array",
   "generate_uuid"]

/-- `FHIR_CUSTOM_TAGS` (in source-literal order; the Python set's
iteration order is fixed deterministically here). -/
def FHIR_CUSTOM_TAGS : List String := ["evaluate", "mergeDiff", "addSegment"]

/-- `RESERVED_KEYWORDS`. -/
def RESERVED_KEYWORDS : List String :=
  ["true", "false", "nil", "empty", "blank", "forloop", "tablerowloop"]

/-- `VALID_TAG_KEYWORDS`. -/
def VALID_TAG_KEYWORDS : List String :=
  ["assign", "capture", "case", "comment", "if", "unless", "elseif", "else",
   "for", "break", "continue", "tablerow", "when", "include", "render",
   "cycle", "increment", "decrement", "echo", "liquid", "raw", "endraw",
   "endif", "endunless", "endfor", "endcase", "endcapture", "endtablerow",
   "endcomment",
   "evaluate", "mergeDiff", "addSegment"]

def MAX_TEMPLATE_SIZE : Nat := 1024 * 1024
def MAX_LINE_COUNT : Nat := 10000
def MAX_NESTING_DEPTH : Nat := 10
def MAX_LOOP_ITERATIONS_WARNING : Nat := 1000

/-! ### Tag-keyword scanner (`_validate_tag_keywords`)

Translation of `re.finditer(r'\x7b%\s*(-\s*)?(\S+)', line)`: find each
`\x7b%`, skip whitespace, optionally a `-` with trailing whitespace,
then capture a maximal non-whitespace token.  When only a dash follows
the whitespace the regex backtracks and the dash itself is the token. -/

/-- Attempt the tail of the tag pattern after a `\x7b%`.  Returns
`(token, matchedTail, rest)` where `matchedTail` is the consumed text
after the `\x7b%` and `rest` is the unconsumed remainder. -/
def tryTagMatch (s : List Char) : Option (List Char × List Char × List Char) :=
  let sp := s.takeWhile isPySpace
  let r := s.dropWhile isPySpace
  match r with
  | [] => none
  | '-' :: t =>
    let r' := t.dropWhile isPySpace
    match r' with
    | [] => some (['-'], sp ++ ['-'], t)
    | _ =>
      let tok := r'.takeWhile (fun c => ¬ isPySpace c)
      some (tok, sp ++ '-' :: (t.takeWhile isPySpace ++ tok),
            r'.dropWhile (fun c => ¬ isPySpace c))
  | _ =>
    let tok := r.takeWhile (fun c => ¬ isPySpace c)
    some (tok, sp ++ tok, r.dropWhile (fun c => ¬ isPySpace c))

/-- Fueled scan for `(token, wholeMatch)` pairs, left to right and
non-overlapping (fuel `≥` input length reproduces `finditer`). -/
def tagScanGo : Nat → List Char → List (List Char × List Char)
  | 0, _ => []
  | _, [] => []
  | fuel + 1, '\x7b' :: '%' :: rest =>
    (match tryTagMatch rest with
     | some (tok, matched, rest') =>
       (tok, '\x7b' :: '%' :: matched) :: tagScanGo fuel rest'
     | none => tagScanGo fuel ('%' :: rest))
  | fuel + 1, _ :: cs => tagScanGo fuel cs

/-- All `(first token, whole match)` pairs of the tag pattern in a line. -/
def tagScan (cs : List Char) : List (List Char × List Char) :=
  tagScanGo cs.length cs

/-- Per-line body of `_validate_tag_keywords`. -/
def tagKeywordLineErrors (lineNumber : Nat) (line : List Char) : List String :=
  (tagScan line).flatMap fun m =>
    if isQuoteChar (m.1.headD ' ') then
      ["Invalid tag syntax at line " ++ toString lineNumber ++
       ": Tags cannot start with string literals. Found: '" ++
       strOf m.2 ++ "...'"]
    else if ¬ VALID_TAG_KEYWORDS.contains (strOf m.1) then
      ["Unknown tag keyword '" ++ strOf m.1 ++ "' at line " ++
       toString lineNumber ++
       ". Tags must start with valid Liquid keywords (assign, include, if, for, etc.)"]
    else []

/-- `_validate_tag_keywords`: errors over all lines. -/
def validateTagKeywords (lines : List (List Char)) : List String :=
  (List.enumFrom 1 lines).flatMap fun p => tagKeywordLineErrors p.1 p.2

/-! ### Generic regex-scan combinators

`re.search` tries the pattern at every position left to right;
`re.finditer`/`findall` additionally resumes after each (non-empty)
match.  `tryAt` functions attempt a match anchored at the given suffix
and return the captured data plus the unconsumed remainder. -/

/-- Consume a literal. -/
def eatLit (lit s : List Char) : Option (List Char) :=
  if lit.isPrefixOf s then some (s.drop lit.length) else none

/-- `re.search` with a boolean matcher. -/
def reSearch (tryAt : List Char → Bool) : List Char → Bool
  | [] => tryAt []
  | c :: cs => tryAt (c :: cs) || reSearch tryAt cs

/-- First match of an anchored matcher (`re.search` returning captures). -/
def reFirst (tryAt : List Char → Option α) : List Char → Option α
  | [] => tryAt []
  | c :: cs =>
    match tryAt (c :: cs) with
    | some a => some a
    | none => reFirst tryAt cs

/-- Fueled `findall`: collect captures left to right, resuming after each
match (fuel `≥` input length reproduces Python). -/
def findAllGo (tryAt : List Char → Option (α × List Char)) :
    Nat → List Char → List α
  | 0, _ => []
  | _, [] => []
  | fuel + 1, c :: cs =>
    match tryAt (c :: cs) with
    | some (a, rest) => a :: findAllGo tryAt fuel rest
    | none => findAllGo tryAt fuel cs

def findAll (tryAt : List Char → Option (α × List Char)) (cs : List Char) :
    List α :=
  findAllGo tryAt cs.length cs

/-- Word boundary `\b` against the following text. -/
def wordBoundary : List Char → Bool
  | [] => true
  | c :: _ => ¬ isWordChar c

/-- First alternative of a keyword alternation that matches (the listed
keywords are pairwise non-prefix or ordered longest-first, as in the
source patterns), with a trailing `\b`. -/
def matchKw (kws : List String) (s : List Char) : Option (String × List Char) :=
  match kws with
  | [] => none
  | k :: rest =>
    match eatLit k.data s with
    | some r => if wordBoundary r then some (k, r) else matchKw rest s
    | none => matchKw rest s

/-- Keyword alternation without a trailing `\b`. -/
def matchKwNB (kws : List String) (s : List Char) : Option (String × List Char) :=
  match kws with
  | [] => none
  | k :: rest =>
    match eatLit k.data s with
    | some r => some (k, r)
    | none => matchKwNB rest s

/-- Optional `(-\s*)?` group (the follower can never begin with `-` at
its use sites, so the greedy optional is deterministic). -/
def eatDashSpaces : List Char → List Char
  | '-' :: t => t.dropWhile isPySpace
  | s => s

/-- Lazy `.*?(-\s*)?%\x7d` tail: consume (non-newline) characters until
the earliest point where `%\x7d`, optionally preceded by `-` and
whitespace, closes the tag.  Returns the rest after the closer. -/
def closeScanGo : Nat → List Char → Option (List Char)
  | 0, _ => none
  | fuel + 1, t =>
    if ['%', '\x7d'].isPrefixOf t then some (t.drop 2)
    else
      match t with
      | [] => none
      | '-' :: t' =>
        let u := t'.dropWhile isPySpace
        if ['%', '\x7d'].isPrefixOf u then some (u.drop 2)
        else closeScanGo fuel t'
      | c :: t' => if c = '\n' then none else closeScanGo fuel t'

def closeScan (t : List Char) : Option (List Char) := closeScanGo (t.length + 1) t

/-- Lazy `(.+?)\s*LIT` tail: consume at least one non-newline character,
checking after each one whether whitespace followed by `LIT` completes
the match.  Returns the (minimal) captured group and the rest. -/
def lazyGroupGo (lit : List Char) : Nat → List Char → List Char →
    Option (List Char × List Char)
  | 0, _, _ => none
  | fuel + 1, acc, t =>
    match t with
    | [] => none
    | c :: t' =>
      if c = '\n' then none
      else
        let u := t'.dropWhile isPySpace
        if lit.isPrefixOf u then some ((c :: acc).reverse, u.drop lit.length)
        else lazyGroupGo lit fuel (c :: acc) t'

def lazyGroup (lit s : List Char) : Option (List Char × List Char) :=
  lazyGroupGo lit s.length [] s

/-- Backtracking `\s+(.+?)\s*LIT` (or `\s*(.+?)\s*LIT` when `requireOne`
is false): the greedy space run is tried longest-first, then the lazy
group shortest-first.  When no completion exists past the space run, the
run's own last non-newline character can become the one-character group. -/
def spacesThenLazy (lit : List Char) (requireOne : Bool) (s : List Char) :
    Option (List Char × List Char) :=
  let sp := s.takeWhile isPySpace
  if requireOne ∧ sp.isEmpty then none
  else
    let after := s.dropWhile isPySpace
    match lazyGroup lit after with
    | some (g, rest) => some (g, rest)
    | none =>
      if lit.isPrefixOf after then
        match sp.reverse.dropWhile (fun c => c = '\n') with
        | [] => none
        | c :: restRev =>
          if requireOne ∧ restRev.isEmpty then none
          else some ([c], after.drop lit.length)
      else none

/-! ### Pattern scanners for the source regexes -/

/-- The two characters opening a Liquid tag. -/
def tagOpen : List Char := ['\x7b', '%']

/-- The two characters opening an output expression. -/
def outOpen : List Char := ['\x7b', '\x7b']

/-- `BLOCK_START_REGEX` keywords. -/
def blockStartKws : List String :=
  ["if", "unless", "for", "case", "capture", "tablerow"]

/-- `BLOCK_END_REGEX` keywords. -/
def blockEndKws : List String :=
  ["endif", "endunless", "endfor", "endcase", "endcapture", "endtablerow"]

/-- Anchored `BLOCK_START_REGEX` match: keyword and rest after the closer. -/
def tryBlockStart (s : List Char) : Option (String × List Char) := do
  let r ← eatLit tagOpen s
  let (k, r3) ← matchKw blockStartKws (eatDashSpaces (r.dropWhile isPySpace))
  let rest ← closeScan r3
  pure (k, rest)

/-- Anchored `BLOCK_END_REGEX` match. -/
def tryBlockEnd (s : List Char) : Option (String × List Char) := do
  let r ← eatLit tagOpen s
  let (k, r3) ← matchKwNB blockEndKws (eatDashSpaces (r.dropWhile isPySpace))
  let u := r3.dropWhile isPySpace
  match u with
  | '-' :: t =>
    let v := t.dropWhile isPySpace
    let w ← eatLit ['%', '\x7d'] v
    pure (k, w)
  | _ =>
    let w ← eatLit ['%', '\x7d'] u
    pure (k, w)

/-- Anchored `WHEN_REGEX` match. -/
def tryWhen (s : List Char) : Option (Unit × List Char) := do
  let r ← eatLit tagOpen s
  let (_, r3) ← matchKw ["when"] (eatDashSpaces (r.dropWhile isPySpace))
  let rest ← closeScan r3
  pure ((), rest)

/-- Anchored `ELSIF_ELSE_REGEX` match (`elseif` is tried before `else`). -/
def tryElsifElse (s : List Char) : Option (String × List Char) := do
  let r ← eatLit tagOpen s
  let (k, r3) ← matchKw ["elseif", "else"] (eatDashSpaces (r.dropWhile isPySpace))
  let rest ← closeScan r3
  pure (k, rest)

/-- All `BLOCK_START_REGEX` keywords in a line, in order. -/
def blockStarts (line : List Char) : List String := findAll tryBlockStart line

/-- All `BLOCK_END_REGEX` keywords in a line, in order. -/
def blockEnds (line : List Char) : List String := findAll tryBlockEnd line

/-- Number of `WHEN_REGEX` matches in a line. -/
def whenCount (line : List Char) : Nat := (findAll tryWhen line).length

/-- All `ELSIF_ELSE_REGEX` keywords in a line, in order. -/
def elsifElses (line : List Char) : List String := findAll tryElsifElse line

/-- Anchored `\x7b%\s*include\s+` (the `include_pattern` of
`_validate_fhir_dependencies`, also `re.search(r'\x7b%\s*include\s+', ...)`). -/
def tryIncludeTag (s : List Char) : Bool :=
  match eatLit tagOpen s with
  | none => false
  | some r =>
    match eatLit "include".data (r.dropWhile isPySpace) with
    | none => false
    | some r2 =>
      match r2 with
      | [] => false
      | c :: _ => isPySpace c

/-- Anchored `\x7b%\s*evaluate\s+`. -/
def tryEvaluateTag (s : List Char) : Bool :=
  match eatLit tagOpen s with
  | none => false
  | some r =>
    match eatLit "evaluate".data (r.dropWhile isPySpace) with
    | none => false
    | some r2 =>
      match r2 with
      | [] => false
      | c :: _ => isPySpace c

/-- `bool(re.search(r'\x7b%\s*evaluate\s+', text))`. -/
def hasEvaluateTag (text : List Char) : Bool := reSearch tryEvaluateTag text

/-- `bool(re.search(r'\x7b%\s*include\s+', text))`. -/
def hasIncludeTag (text : List Char) : Bool := reSearch tryIncludeTag text

/-- Anchored `INCLUDE_REGEX`
`\x7b%\s*(-\s*)?include\s+['\"]([^'\"]+)['\"]`: captures the quoted path
(the closing quote need not equal the opening one). -/
def tryIncludePath (s : List Char) : Option (List Char × List Char) := do
  let r ← eatLit tagOpen s
  let r2 ← eatLit "include".data (eatDashSpaces (r.dropWhile isPySpace))
  match r2 with
  | [] => none
  | c :: _ =>
    if ¬ isPySpace c then none
    else
      match r2.dropWhile isPySpace with
      | q1 :: r3 =>
        if ¬ isQuoteChar q1 then none
        else
          let body := r3.takeWhile (fun c => ¬ isQuoteChar c)
          if body.isEmpty then none
          else
            match r3.drop body.length with
            | q2 :: rest => if isQuoteChar q2 then some (body, rest) else none
            | [] => none
      | [] => none

/-- All `INCLUDE_REGEX` capture groups in a line. -/
def includeMatches (line : List Char) : List (List Char) :=
  findAll tryIncludePath line

/-- Anchored `evaluate_pattern`
`\x7b%\s*evaluate\s+(\w+)\s+using\s+['\"]([^'\"]+)['\"]`. -/
def tryEvaluatePat (s : List Char) : Option (List Char × List Char) := do
  let r ← eatLit tagOpen s
  let r2 ← eatLit "evaluate".data (r.dropWhile isPySpace)
  match r2 with
  | [] => none
  | c :: _ =>
    if ¬ isPySpace c then none
    else
      let r3 := r2.dropWhile isPySpace
      let varName := r3.takeWhile isWordChar
      if varName.isEmpty then none
      else
        let r4 := r3.drop varName.length
        match r4 with
        | [] => none
        | c2 :: _ =>
          if ¬ isPySpace c2 then none
          else do
            let r5 ← eatLit "using".data (r4.dropWhile isPySpace)
            match r5 with
            | [] => none
            | c3 :: _ =>
              if ¬ isPySpace c3 then none
              else
                match r5.dropWhile isPySpace with
                | q1 :: r6 =>
                  if ¬ isQuoteChar q1 then none
                  else
                    let body := r6.takeWhile (fun c => ¬ isQuoteChar c)
                    if body.isEmpty then none
                    else
                      match r6.drop body.length with
                      | q2 :: _ =>
                        if isQuoteChar q2 then some (varName, body) else none
                      | [] => none
                | [] => none

/-- First `evaluate_pattern` match in a line (`evaluate_pattern.search`). -/
def evalPatSearch (line : List Char) : Option (List Char × List Char) :=
  reFirst tryEvaluatePat line

/-- Anchored `\x7b%\s*(?:if|unless)\s+(.+?)\s*%\x7d`: captures the
condition of an `if`/`unless` tag. -/
def tryIfCond (s : List Char) : Option (List Char) := do
  let r ← eatLit tagOpen s
  let r1 := r.dropWhile isPySpace
  let r2 ←
    match eatLit "if".data r1 with
    | some x => some x
    | none => eatLit "unless".data r1
  let (g, _) ← spacesThenLazy ['%', '\x7d'] true r2
  pure g

/-- First `if`/`unless` condition in a line. -/
def extractCond (line : List Char) : Option (List Char) := reFirst tryIfCond line

/-- Anchored `ASSIGN_REGEX` `\x7b%\s*assign\s+(\w+)\s*=\s*(.+?)\s*%\x7d`. -/
def tryAssign (s : List Char) : Option ((List Char × List Char) × List Char) := do
  let r ← eatLit tagOpen s
  let r2 ← eatLit "assign".data (r.dropWhile isPySpace)
  match r2 with
  | [] => none
  | c :: _ =>
    if ¬ isPySpace c then none
    else
      let r3 := r2.dropWhile isPySpace
      let varName := r3.takeWhile isWordChar
      if varName.isEmpty then none
      else
        match (r3.drop varName.length).dropWhile isPySpace with
        | '=' :: r4 => do
          let (v, rest) ← spacesThenLazy ['%', '\x7d'] false r4
          pure ((varName, v), rest)
        | _ => none

/-- All `ASSIGN_REGEX` matches (name, value) in a text. -/
def assignMatches (text : List Char) : List (List Char × List Char) :=
  findAll tryAssign text

/-- Character class `[\w\.\[\]\'\"]` of `VARIABLE_REGEX`. -/
def isVarClassChar (c : Char) : Bool :=
  isWordChar c ∨ c = '.' ∨ c = '[' ∨ c = ']' ∨ c = '\'' ∨ c = '"'

/-- Lazy `.*?\s*\x7d\x7d` tail of `VARIABLE_REGEX` after a `|`. -/
def varFilterCloseGo : Nat → List Char → Option (List Char)
  | 0, _ => none
  | fuel + 1, t =>
    let u := t.dropWhile isPySpace
    if ['\x7d', '\x7d'].isPrefixOf u then some (u.drop 2)
    else
      match t with
      | [] => none
      | c :: t' => if c = '\n' then none else varFilterCloseGo fuel t'

/-- Anchored `VARIABLE_REGEX`
`\x7b\x7b\s*([\w\.\[\]\'\"]+)(?:\s*\|.*?)?\s*\x7d\x7d`. -/
def tryVariable (s : List Char) : Option (List Char × List Char) := do
  let r ← eatLit outOpen s
  let r1 := r.dropWhile isPySpace
  let varName := r1.takeWhile isVarClassChar
  if varName.isEmpty then none
  else
    let r2 := r1.drop varName.length
    let r3 := r2.dropWhile isPySpace
    match r3 with
    | '|' :: r4 => do
      let rest ← varFilterCloseGo (r4.length + 1) r4
      pure (varName, rest)
    | _ => do
      let rest ← eatLit ['\x7d', '\x7d'] r3
      pure (varName, rest)

/-- All `VARIABLE_REGEX` capture groups in a text (`findall`). -/
def variableMatches (text : List Char) : List (List Char) :=
  findAll tryVariable text

/-- `re.sub(r'\[.*?\]', '', var)`: remove lazily bracketed segments. -/
def removeBrackets : Nat → List Char → List Char
  | 0, s => s
  | _ + 1, [] => []
  | fuel + 1, '[' :: t =>
    (match t.dropWhile (fun c => c ≠ ']') with
     | ']' :: u => removeBrackets fuel u
     | _ => '[' :: removeBrackets fuel t)
  | fuel + 1, c :: t => c :: removeBrackets fuel t

/-- `re.match(r'^[a-zA-Z_]\w*$', s)`. -/
def isIdent (cs : List Char) : Bool :=
  match cs with
  | [] => false
  | c :: rest =>
    (('a' ≤ c ∧ c ≤ 'z') ∨ ('A' ≤ c ∧ c ≤ 'Z') ∨ c = '_') ∧ rest.all isWordChar

/-- Root of a variable reference: strip brackets, take the part before
the first dot. -/
def varRoot (var : List Char) : List Char :=
  (splitOn '.' (removeBrackets var.length var)).headD []

/-- Anchored `FILTER_REGEX`
`\|\s*([a-zA-Z_]\w*)(?:\s*:\s*([^|\x7d\"']+|\"[^\"]*\"|'[^']*'))?`:
captures filter name and raw parameter substring (empty when absent). -/
def tryFilter (s : List Char) : Option ((List Char × List Char) × List Char) :=
  match s with
  | '|' :: r =>
    let r1 := r.dropWhile isPySpace
    match r1 with
    | c :: cs =>
      if ¬ (('a' ≤ c ∧ c ≤ 'z') ∨ ('A' ≤ c ∧ c ≤ 'Z') ∨ c = '_') then none
      else
        let name := c :: cs.takeWhile isWordChar
        let rest2 := cs.dropWhile isWordChar
        match rest2.dropWhile isPySpace with
        | ':' :: r3 =>
          let p0 := r3.dropWhile isPySpace
          let a1 := p0.takeWhile
            (fun c => ¬ (c = '|' ∨ c = '\x7d' ∨ c = '"' ∨ c = '\''))
          if ¬ a1.isEmpty then some ((name, a1), p0.drop a1.length)
          else
            match p0 with
            | '"' :: b =>
              let body := b.takeWhile (fun c => c ≠ '"')
              (match b.drop body.length with
               | '"' :: rest => some ((name, '"' :: (body ++ ['"'])), rest)
               | _ => some ((name, []), rest2))
            | '\'' :: b =>
              let body := b.takeWhile (fun c => c ≠ '\'')
              (match b.drop body.length with
               | '\'' :: rest => some ((name, '\'' :: (body ++ ['\''])), rest)
               | _ => some ((name, []), rest2))
            | _ => some ((name, []), rest2)
        | _ => some ((name, []), rest2)
    | [] => none
  | _ => none

/-- All `FILTER_REGEX` matches in a line. -/
def filterMatches (line : List Char) : List (List Char × List Char) :=
  findAll tryFilter line

/-- Anchored `name\s*\(` (dangerous-pattern shape). -/
def tryNameParen (name : List Char) (s : List Char) : Bool :=
  match eatLit name s with
  | none => false
  | some r =>
    match r.dropWhile isPySpace with
    | '(' :: _ => true
    | _ => false

/-- `re.search(name + r'\s*\(', loweredText)`. -/
def dangerNameParen (name text : List Char) : Bool :=
  reSearch (tryNameParen name) text

/-- Anchored `DOUBLE_DOT_REGEX` `\w+\.\.\w+`. -/
def tryDoubleDot (s : List Char) : Option (List Char × List Char) :=
  match s with
  | c :: _ =>
    if ¬ isWordChar c then none
    else
      let w1 := s.takeWhile isWordChar
      match eatLit ['.', '.'] (s.drop w1.length) with
      | none => none
      | some r2 =>
        let w2 := r2.takeWhile isWordChar
        if w2.isEmpty then none
        else some (w1 ++ '.' :: '.' :: w2, r2.drop w2.length)
  | [] => none

/-- Anchored `\w+\.\s*[|\x7d]` (empty property access). -/
def tryEmptyAccess (s : List Char) : Option (Unit × List Char) :=
  match s with
  | c :: _ =>
    if ¬ isWordChar c then none
    else
      match s.dropWhile isWordChar with
      | '.' :: r =>
        (match r.dropWhile isPySpace with
         | '|' :: rest => some ((), rest)
         | '\x7d' :: rest => some ((), rest)
         | _ => none)
      | _ => none
  | [] => none

/-- Anchored `OUTPUT_EMPTY_REGEX` `\x7b\x7b\s*\x7d\x7d`. -/
def tryEmptyOutput (s : List Char) : Option (Unit × List Char) := do
  let r ← eatLit outOpen s
  let rest ← eatLit ['\x7d', '\x7d'] (r.dropWhile isPySpace)
  pure ((), rest)

/-- Operator-run characters of `[=!<>]\x7b3,\x7d`. -/
def isOpChar (c : Char) : Bool := c = '=' ∨ c = '!' ∨ c = '<' ∨ c = '>'

/-- Anchored maximal operator run of length `≥ 3`. -/
def tryOpRun (s : List Char) : Option (List Char × List Char) :=
  match s with
  | c :: _ =>
    if ¬ isOpChar c then none
    else
      let run := s.takeWhile isOpChar
      if run.length ≥ 3 then some (run, s.drop run.length) else none
  | [] => none

/-- `re.findall(r'[=!<>]\x7b3,\x7d', expr)`. -/
def invalidOpRuns (expr : List Char) : List (List Char) := findAll tryOpRun expr

/-- Anchored `\w+\s*=\s*\w+` (possible assignment in a condition). -/
def tryWordEqWord (s : List Char) : Bool :=
  match s with
  | c :: _ =>
    if ¬ isWordChar c then false
    else
      match (s.dropWhile isWordChar).dropWhile isPySpace with
      | '=' :: r3 =>
        (match r3.dropWhile isPySpace with
         | c2 :: _ => isWordChar c2
         | [] => false)
      | _ => false
  | [] => false

/-- `re.search(r'\w+\s*=\s*\w+', expr)`. -/
def hasAssignInCond (expr : List Char) : Bool := reSearch tryWordEqWord expr

/-- Anchored `\x7b%\s*for\b`. -/
def tryForTag (s : List Char) : Bool :=
  match eatLit tagOpen s with
  | none => false
  | some r =>
    match eatLit "for".data (r.dropWhile isPySpace) with
    | some r2 => wordBoundary r2
    | none => false

/-- Anchored `\x7b%\s*endfor\s*%\x7d`. -/
def tryEndforTag (s : List Char) : Bool :=
  match eatLit tagOpen s with
  | none => false
  | some r =>
    match eatLit "endfor".data (r.dropWhile isPySpace) with
    | some r2 => (eatLit ['%', '\x7d'] (r2.dropWhile isPySpace)).isSome
    | none => false

/-- Anchored `BREAK_CONTINUE_REGEX` `\x7b%\s*(break|continue)\s*%\x7d`. -/
def tryBreakContinue (s : List Char) : Bool :=
  match eatLit tagOpen s with
  | none => false
  | some r =>
    let r1 := r.dropWhile isPySpace
    match matchKwNB ["break", "continue"] r1 with
    | some (_, r2) => (eatLit ['%', '\x7d'] (r2.dropWhile isPySpace)).isSome
    | none => false

/-- Anchored `\x7b%\s*for\s+\w+\s+in\s+(.+?)\s*%\x7d`: captures the loop
range expression. -/
def tryForRange (s : List Char) : Option (List Char × List Char) := do
  let r ← eatLit tagOpen s
  let r2 ← eatLit "for".data (r.dropWhile isPySpace)
  match r2 with
  | [] => none
  | c :: _ =>
    if ¬ isPySpace c then none
    else
      let r3 := r2.dropWhile isPySpace
      let v := r3.takeWhile isWordChar
      if v.isEmpty then none
      else
        let r4 := r3.drop v.length
        match r4 with
        | [] => none
        | c2 :: _ =>
          if ¬ isPySpace c2 then none
          else do
            let r5 ← eatLit "in".data (r4.dropWhile isPySpace)
            spacesThenLazy ['%', '\x7d'] true r5

/-- Anchored `(\d+)\.\.(\d+)`. -/
def tryNatRange (s : List Char) : Option (List Char × List Char) :=
  match s with
  | c :: _ =>
    if ¬ isDigitChar c then none
    else
      let d1 := s.takeWhile isDigitChar
      match eatLit ['.', '.'] (s.drop d1.length) with
      | none => none
      | some r =>
        let d2 := r.takeWhile isDigitChar
        if d2.isEmpty then none else some (d1, d2)
  | [] => none

/-- Numeric value of a digit run. -/
def natOfDigits (ds : List Char) : Nat :=
  ds.foldl (fun n c => n * 10 + (c.toNat - '0'.toNat)) 0

/-- `type:\s*['\"]First['\"]` tail of the second ID-only pattern. -/
def tryTypeFirst (s : List Char) : Bool :=
  match eatLit "type:".data s with
  | none => false
  | some r =>
    match r.dropWhile isPySpace with
    | q1 :: v =>
      if ¬ isQuoteChar q1 then false
      else
        match eatLit "First".data v with
        | some (q2 :: _) => isQuoteChar q2
        | _ => false
    | [] => false

/-- The three `ID_ONLY_PATTERNS` of `_validate_fhir_dependencies`. -/
def idOnlyMatch (line : List Char) : Bool :=
  containsSub "ID/Bundle".data line ∨
  reSearch (fun s =>
    match eatLit "ID/Patient".data s with
    | some r => reSearch tryTypeFirst r
    | none => false) line ∨
  containsSub "ID/Encounter".data line

/-! ### Validation passes

Each pass returns `(errors, warnings)` appended by `validate` in source
order.  In the Python source the passes append to instance fields; the
functional form concatenates the same strings in the same order. -/

/-- `_validate_encoding` restricted to scalar text: the guarded
`text.encode('utf-8')` succeeds on every surrogate-free string, so on
this domain only the BOM warning can fire.  `validateEncodingPy`
models the pass over the full code-point domain, where the `except
UnicodeEncodeError` branch appends its diagnostic. -/
def validateEncoding (text : List Char) : List String × List String :=
  ([],
   match text with
   | c :: _ =>
    if c = '\uFEFF' then ["Byte Order Mark (BOM) detected at file start"]
    else []
   | _ => [])

/-- `_validate_template_size` restricted to scalar text, where the
unguarded `len(text.encode('utf-8'))` cannot raise and is the UTF-8
byte length.  `validateTemplateSizePy` models the pass over the full
code-point domain, where that encode raises on a lone surrogate and
the exception escapes `validate()`. -/
def validateTemplateSize (text : List Char) : List String × List String :=
  let size := utf8Len text
  let lineCount := (splitlines text).length
  ((if size > MAX_TEMPLATE_SIZE then
      ["Template size (" ++ toString size ++ " bytes) exceeds maximum (" ++
       toString MAX_TEMPLATE_SIZE ++ " bytes)"]
    else []) ++
   (if lineCount > MAX_LINE_COUNT then
      ["Template line count (" ++ toString lineCount ++
       ") exceeds maximum (" ++ toString MAX_LINE_COUNT ++ ")"]
    else []), [])

/-- `_validate_empty_content` (`not text or not text.strip()` is
equivalent to the stripped text being empty). -/
def validateEmptyContent (text : List Char) : List String × List String :=
  (if (pyStrip text).isEmpty then ["Template content cannot be empty"] else [],
   [])

/-- `any(f'\x7b% \x7btag\x7d' in text for tag in FHIR_CUSTOM_TAGS)`. -/
def hasFhirTags (text : List Char) : Bool :=
  FHIR_CUSTOM_TAGS.any fun tag =>
    containsSub ('\x7b' :: '%' :: ' ' :: tag.data) text

/-- `_validate_syntax`.  `lp` models the external python-liquid
`Environment().from_string` step: `some msg` when parsing raises with
message `msg`, `none` when it succeeds (the library is outside this
repository; spec §4.6 treats it as a best-effort error source). -/
def validateSyntax (lp : String → Option String) (text : List Char) :
    List String × List String :=
  let openLiquid := countSub tagOpen text
  let closeLiquid := countSub ['%', '\x7d'] text
  let e1 :=
    if openLiquid ≠ closeLiquid then
      ["Unmatched Liquid tags: " ++ toString openLiquid ++
       " opening '\x7b%', " ++ toString closeLiquid ++ " closing '%\x7d'"]
    else []
  let openOut := countSub outOpen text
  let closeOut := countSub ['\x7d', '\x7d'] text
  let e2 :=
    if openOut ≠ closeOut then
      ["Unmatched output tags: " ++ toString openOut ++
       " opening '\x7b\x7b', " ++ toString closeOut ++ " closing '\x7d\x7d'"]
    else []
  let e3 :=
    if hasFhirTags text then []
    else
      match lp (strOf text) with
      | none => []
      | some msg =>
        let lmsg := lowerStr msg.data
        if containsSub "unknown".data lmsg ∨ containsSub "undefined".data lmsg ∨
           containsSub "unregistered".data lmsg then []
        else ["Liquid parse error: " ++ msg]
  (e1 ++ e2 ++ e3, [])

/-- Doubled-brace tag rendering produced by the source's f-strings
(`'\x7b\x7b\x7b\x7b% ... %\x7d\x7d\x7d\x7d'` renders as
`'\x7b\x7b% ... %\x7d\x7d'`). -/
def dblTag (t : String) : String := "\x7b\x7b% " ++ t ++ " %\x7d\x7d"

/-- Mutable state of `_validate_tags`. -/
structure TagState where
  stack : List (String × Nat)
  caseStack : List Nat
  errors : List String
  warnings : List String
deriving Repr

/-- One line of `_validate_tags` (stack top is the list head). -/
def processTagLine (st : TagState) (ln : Nat) (line : List Char) : TagState :=
  let st :=
    if st.stack.length > MAX_NESTING_DEPTH then
      { st with warnings := st.warnings ++
          ["Deep nesting detected at line " ++ toString ln ++ " (depth: " ++
           toString st.stack.length ++ ")"] }
    else st
  let st := (blockStarts line).foldl (fun st tag =>
    { st with
      stack := (tag, ln) :: st.stack,
      caseStack := if tag = "case" then ln :: st.caseStack else st.caseStack }) st
  let st := (List.replicate (whenCount line) ()).foldl (fun st _ =>
    if st.caseStack.isEmpty then
      { st with errors := st.errors ++
          ["'when' at line " ++ toString ln ++ " used outside of 'case' block"] }
    else st) st
  let st := (elsifElses line).foldl (fun st tag =>
    match st.stack with
    | (t, _) :: _ =>
      if t = "if" ∨ t = "unless" then st
      else
        { st with errors := st.errors ++
            ["'" ++ tag ++ "' at line " ++ toString ln ++
             " used without preceding 'if' or 'unless'"] }
    | [] =>
      { st with errors := st.errors ++
          ["'" ++ tag ++ "' at line " ++ toString ln ++
           " used without preceding 'if' or 'unless'"] }) st
  (blockEnds line).foldl (fun st endTag =>
    match st.stack with
    | [] =>
      { st with errors := st.errors ++
          ["Unexpected '" ++ dblTag endTag ++ "' at line " ++ toString ln] }
    | (startTag, startLine) :: rest =>
      let expected := ((OPEN_TAGS.lookup startTag).getD "None")
      let st := { st with stack := rest }
      let st :=
        if endTag ≠ expected then
          { st with errors := st.errors ++
              ["Mismatched block: '" ++ dblTag startTag ++ "' at line " ++
               toString startLine ++ " closed by '" ++ dblTag endTag ++
               "' at line " ++ toString ln ++ ". Expected '" ++
               dblTag expected ++ "'"] }
        else st
      if endTag = "endcase" ∧ ¬ st.caseStack.isEmpty then
        { st with caseStack := st.caseStack.tail }
      else st) st

/-- `_validate_tags`: run the stack machine and report unclosed blocks
(reported in push order, i.e. from the bottom of the stack). -/
def validateTags (lines : List (List Char)) : List String × List String :=
  let st := (List.enumFrom 1 lines).foldl
    (fun st p => processTagLine st p.1 p.2) ⟨[], [], [], []⟩
  (st.errors ++ st.stack.reverse.map (fun f =>
     "Unclosed block '" ++ dblTag f.1 ++ "' at line " ++ toString f.2 ++
     ", missing '" ++ dblTag ((OPEN_TAGS.lookup f.1).getD "None") ++ "'"),
   st.warnings)

/-- `_validate_variables`.  The "missing required variables" list is a
Python set difference whose iteration order is unspecified; the model
fixes the order of the configured required-variables list. -/
def validateVariables (allowedVars requiredVars : List String)
    (text : List Char) : List String × List String :=
  let vars := variableMatches text
  let assigned := (assignMatches text).map Prod.fst
  let acc := vars.foldl (fun (acc : List String × List String) var =>
    let root := varRoot var
    let acc :=
      if ¬ isIdent root then
        (acc.1 ++ ["Invalid variable name: '" ++ strOf root ++ "'"], acc.2)
      else acc
    if allowedVars ≠ [] ∧ ¬ allowedVars.contains (strOf root) ∧
       ¬ assigned.contains root ∧ ¬ RESERVED_KEYWORDS.contains (strOf root) then
      (acc.1, acc.2 ++
        ["Undefined variable reference: '\x7b\x7b " ++ strOf var ++ " \x7d\x7d'"])
    else acc) ([], [])
  let missing := requiredVars.filter fun rv =>
    ¬ assigned.contains rv.data ∧ ¬ vars.contains rv.data
  if requiredVars ≠ [] ∧ missing ≠ [] then
    (acc.1 ++ ["Missing required variables: " ++ String.intercalate ", " missing],
     acc.2)
  else acc

/-- `_validate_security` (patterns searched case-insensitively, in
source-list order; messages carry the regex source text). -/
def validateSecurity (text : List Char) : List String × List String :=
  let lt := lowerStr text
  let hit := fun (b : Bool) (pat : String) =>
    if b then ["Potentially dangerous pattern detected: " ++ pat] else []
  (hit (dangerNameParen "system".data lt) "system\\s*\\(" ++
   hit (dangerNameParen "exec".data lt) "exec\\s*\\(" ++
   hit (dangerNameParen "eval".data lt) "eval\\s*\\(" ++
   hit (containsSub "__import__".data lt) "__import__" ++
   hit (dangerNameParen "open".data lt) "open\\s*\\(" ++
   hit (dangerNameParen "file".data lt) "file\\s*\\(", [])

/-- Per-line body of `_validate_filters`. -/
def filtersLine (n : Nat) (line : List Char) : List String × List String :=
  (filterMatches line).foldl (fun acc m =>
    let acc :=
      if ¬ ALLOWED_FILTERS.contains (strOf m.1) then
        (acc.1, acc.2 ++
          ["Unknown filter '" ++ strOf m.1 ++ "' at line " ++ toString n ++
           " (may be a FHIR Converter custom filter)"])
      else acc
    if m.2 ≠ [] ∧ (m.2.filter isQuoteChar).length % 2 ≠ 0 then
      (acc.1 ++
        ["Unmatched quotes in filter parameters at line " ++ toString n ++
         ": " ++ strOf m.2], acc.2)
    else acc) ([], [])

/-- `_validate_filters`. -/
def validateFilters (lines : List (List Char)) : List String × List String :=
  (List.enumFrom 1 lines).foldl (fun acc p =>
    let r := filtersLine p.1 p.2
    (acc.1 ++ r.1, acc.2 ++ r.2)) ([], [])

/-- Python `repr` of a list of strings made of operator characters. -/
def pyReprList (xs : List (List Char)) : String :=
  "[" ++ String.intercalate ", " (xs.map fun x => "'" ++ strOf x ++ "'") ++ "]"

/-- Per-line body of `_validate_expressions`. -/
def expressionsLine (n : Nat) (line : List Char) : List String × List String :=
  match extractCond line with
  | none => ([], [])
  | some e =>
    let ops := invalidOpRuns e
    ((if ops ≠ [] then
        ["Invalid operator at line " ++ toString n ++ ": " ++ pyReprList ops]
      else []),
     (if hasAssignInCond e ∧ ¬ containsSub ['=', '='] e then
        ["Possible assignment in condition at line " ++ toString n]
      else []))

/-- `_validate_expressions`. -/
def validateExpressions (lines : List (List Char)) : List String × List String :=
  (List.enumFrom 1 lines).foldl (fun acc p =>
    let r := expressionsLine p.1 p.2
    (acc.1 ++ r.1, acc.2 ++ r.2)) ([], [])

/-- `_validate_control_flow` (the loop stack holds line numbers; `pop`
on an empty stack is a no-op as in the guarded source). -/
def validateControlFlow (lines : List (List Char)) : List String × List String :=
  let fin := (List.enumFrom 1 lines).foldl
    (fun (st : List Nat × List String) p =>
      let stk :=
        if reSearch tryForTag p.2 then p.1 :: st.1
        else if reSearch tryEndforTag p.2 then st.1.tail
        else st.1
      let errs :=
        if reSearch tryBreakContinue p.2 ∧ stk.isEmpty then
          st.2 ++ ["'break' or 'continue' used outside loop at line " ++
                   toString p.1]
        else st.2
      (stk, errs)) ([], [])
  (fin.2, [])

/-- Keep first occurrences (deterministic stand-in for Python's
`set(...)` iteration in `_validate_objects`). -/
def dedupKeepFirst (xs : List String) : List String :=
  xs.foldl (fun acc x => if acc.contains x then acc else acc ++ [x]) []

/-- `_validate_objects`. -/
def validateObjects (text : List Char) : List String × List String :=
  let dd := findAll tryDoubleDot text
  let e1 :=
    if dd ≠ [] then
      ["Invalid object access with double dots: " ++
       String.intercalate ", " (dedupKeepFirst (dd.map strOf))]
    else []
  let ea := (findAll tryEmptyAccess text).length
  let e2 :=
    if ea ≠ 0 then
      ["Empty property access detected: " ++ toString ea ++ " instances"]
    else []
  (e1 ++ e2, [])

/-- `_validate_strings`. -/
def validateStrings (lines : List (List Char)) : List String × List String :=
  ((List.enumFrom 1 lines).flatMap fun p =>
    let sq := countSub ['\''] p.2 - countSub ['\\', '\''] p.2
    let dq := countSub ['"'] p.2 - countSub ['\\', '"'] p.2
    (if sq % 2 ≠ 0 then
       ["Unmatched single quotes at line " ++ toString p.1] else []) ++
    (if dq % 2 ≠ 0 then
       ["Unmatched double quotes at line " ++ toString p.1] else []), [])

/-- `_validate_comments`. -/
def validateComments (text : List Char) : List String × List String :=
  let o := countSub "\x7b% comment %\x7d".data text
  let c := countSub "\x7b% endcomment %\x7d".data text
  (if o ≠ c then
     ["Unmatched comment tags: " ++ toString o ++ " opening, " ++
      toString c ++ " closing"]
   else [], [])

/-- First alternative `\x7b%\s*-(?![\s%])` of the whitespace-control
pattern (the lookahead consumes nothing). -/
def tryWsAlt1 (s : List Char) : Option (List Char) := do
  let r ← eatLit tagOpen s
  match r.dropWhile isPySpace with
  | '-' :: t =>
    match t with
    | [] => some []
    | d :: _ => if isPySpace d ∨ d = '%' then none else some t
  | _ => none

/-- Second alternative `(?<![-\s])-\s*%\x7d` (the lookbehind is checked
by the caller). -/
def tryWsAlt2 (s : List Char) : Option (List Char) :=
  match s with
  | '-' :: t =>
    let u := t.dropWhile isPySpace
    if ['%', '\x7d'].isPrefixOf u then some (u.drop 2) else none
  | _ => none

/-- Count matches of the whitespace-control pattern, tracking the
previous character for the lookbehind. -/
def wsCtrlGo : Nat → Option Char → List Char → Nat
  | 0, _, _ => 0
  | fuel + 1, prev, s =>
    match s with
    | [] => 0
    | c :: rest =>
      match tryWsAlt1 s with
      | some r' => 1 + wsCtrlGo fuel (some '-') r'
      | none =>
        let prevOk :=
          match prev with
          | none => true
          | some p => ¬ (p = '-' ∨ isPySpace p)
        match (if prevOk then tryWsAlt2 s else none) with
        | some r' => 1 + wsCtrlGo fuel (some '\x7d') r'
        | none => wsCtrlGo fuel (some c) rest

/-- `_validate_whitespace_control`. -/
def validateWhitespaceControl (text : List Char) : List String × List String :=
  let n := wsCtrlGo text.length none text
  ([], if n ≠ 0 then
     ["Possibly invalid whitespace control syntax: " ++ toString n ++
      " instances"]
   else [])

/-- `_validate_output`. -/
def validateOutput (text : List Char) : List String × List String :=
  let n := (findAll tryEmptyOutput text).length
  ([], if n ≠ 0 then
     ["Empty output tags detected: " ++ toString n ++ " instances"]
   else [])

/-- Per-line body of `_validate_assignments`. -/
def assignmentsLine (n : Nat) (line : List Char) : List String :=
  (findAll tryAssign line).flatMap fun m =>
    (if RESERVED_KEYWORDS.contains (strOf m.1) then
       ["Cannot assign to reserved keyword '" ++ strOf m.1 ++ "' at line " ++
        toString n]
     else []) ++
    (if ¬ isIdent m.1 then
       ["Invalid variable name '" ++ strOf m.1 ++ "' at line " ++ toString n]
     else [])

/-- `_validate_assignments`. -/
def validateAssignments (lines : List (List Char)) : List String × List String :=
  ((List.enumFrom 1 lines).flatMap fun p => assignmentsLine p.1 p.2, [])

/-- `_validate_performance` (the running depth counter can go negative,
hence `Int`). -/
def validatePerformance (text : List Char) (lines : List (List Char)) :
    List String × List String :=
  let fin := lines.foldl (fun (p : Int × Int) line =>
    let cur := p.2 + (blockStarts line).length
    (max p.1 cur, cur - (blockEnds line).length)) (0, 0)
  let w1 :=
    if fin.1 > (MAX_NESTING_DEPTH : Int) then
      ["Deep nesting detected: " ++ toString fin.1 ++ " levels (limit: " ++
       toString MAX_NESTING_DEPTH ++ ")"]
    else []
  let w2 := (findAll tryForRange text).flatMap fun rng =>
    if containsSub ['.', '.'] rng then
      match reFirst tryNatRange rng with
      | some (d1, d2) =>
        let a := natOfDigits d1
        let b := natOfDigits d2
        if (b : Int) - (a : Int) > (MAX_LOOP_ITERATIONS_WARNING : Int) then
          ["Large loop range detected: " ++ toString a ++ ".." ++ toString b ++
           " (" ++ toString ((b : Int) - (a : Int)) ++ " iterations)"]
        else []
      | none => []
    else []
  ([], w1 ++ w2)

/-- `_validate_fhir_specific`. -/
def validateFhirSpecific (text : List Char) : List String × List String :=
  let found := FHIR_CUSTOM_TAGS.filter fun tag =>
    containsSub ('\x7b' :: '%' :: ' ' :: tag.data) text
  let w1 :=
    if found ≠ [] then
      ["FHIR Converter custom tags detected: " ++
       String.intercalate ", " found ++
       " (standard Liquid validation may not apply)"]
    else []
  let hasRT :=
    containsSub ('"' :: ("resourceType".data ++ ['"'])) text ∨
    containsSub ('\'' :: ("resourceType".data ++ ['\''])) text ∨
    containsSub "resourceType".data text
  (([] : List String),
   w1 ++ (if ¬ hasRT then ["FHIR 'resourceType' field not found in template"]
          else []))

/-- Window loop of `_validate_fhir_dependencies`: scan the index window
for an include, preferring one that mentions the evaluated variable but
accepting any include (both branches set `found` and break). -/
def fhirWindowLoop (lines : List (List Char)) (curIdx : Nat)
    (varName : List Char) : List Nat → Bool
  | [] => false
  | j :: js =>
    if j = curIdx then fhirWindowLoop lines curIdx varName js
    else
      let cl := pyStrip (lines.getD j [])
      if cl.isEmpty ∨ containsSub "comment".data cl then
        fhirWindowLoop lines curIdx varName js
      else if reSearch tryIncludeTag cl ∧ containsSub varName cl then true
      else if reSearch tryIncludeTag cl then true
      else fhirWindowLoop lines curIdx varName js

/-- Per-line body of the `_validate_fhir_dependencies` loop (0-based
index; the source's `line_num` is `idx + 1`). -/
def fhirDepLine (lines : List (List Char)) (idx : Nat) : List String :=
  match evalPatSearch (lines.getD idx []) with
  | none => []
  | some (varName, resourceType) =>
    if idOnlyMatch (lines.getD idx []) then []
    else
      let lineNum := idx + 1
      let searchStart := lineNum - 21
      let searchEnd := min lines.length (lineNum + 19)
      let window := List.range' searchStart (searchEnd - searchStart)
      if fhirWindowLoop lines idx varName window then []
      else
        ["Line " ++ toString lineNum ++ ": Evaluated variable '" ++
         strOf varName ++ "' (resource: '" ++ strOf resourceType ++
         "') has no corresponding '\x7b% include %\x7d' statement within " ++
         "20 lines. Verify this resource is included in the Bundle output."]

/-- `_validate_fhir_dependencies`. -/
def validateFhirDependencies (text : List Char) : List String × List String :=
  if hasEvaluateTag text ∧ ¬ hasIncludeTag text then
    (["FHIR validation failed: Templates using '\x7b% evaluate %\x7d' " ++
      "must contain '\x7b% include %\x7d' tags."], [])
  else
    let lines := splitlines text
    ([], (List.range lines.length).flatMap (fhirDepLine lines))

/-! ### Include validation, blob-path conversion, cycle detection -/

/-- The include graph (`self.include_graph`): a dictionary from node
name to its set of children.  Sets are modelled as duplicate-free lists
in insertion order. -/
abbrev Graph := List (String × List String)

/-- `include_graph.get(node, [])`. -/
def graphGet (g : Graph) (node : String) : List String :=
  ((g.find? fun e => e.1 = node).map Prod.snd).getD []

/-- `self.include_graph.setdefault("ROOT", set()).add(path)`. -/
def addRootPath (g : Graph) (p : String) : Graph :=
  if (g.find? fun e => e.1 = "ROOT").isSome then
    g.map fun e =>
      if e.1 = "ROOT" then (e.1, if e.2.contains p then e.2 else e.2 ++ [p])
      else e
  else g ++ [("ROOT", [p])]

/-- `_convert_include_to_blob_path` (the `len(parts) == 0` branch is
dead in Python — `split` never returns an empty list — and is kept). -/
def convertIncludeToBlobPath (sourceType includePath : String) : String :=
  let parts := splitOn '/' includePath.data
  match parts with
  | [] => sourceType ++ "/_unknown.liquid"
  | _ =>
    let fileName := parts.getLastD []
    let f1 := if ['_'].isPrefixOf fileName then fileName else '_' :: fileName
    let f2 := if ".liquid".data.isSuffixOf f1 then f1 else f1 ++ ".liquid".data
    if parts.length > 1 then
      sourceType ++ "/" ++ strOf (List.intercalate ['/'] parts.dropLast) ++
        "/" ++ strOf f2
    else sourceType ++ "/" ++ strOf f2

/-- Configuration of a validator instance (`__init__` keyword
arguments).  `blob_service` models the external
`check_blob_exists(path) -> bool` capability, as a fallible function so
that a raising oracle can be expressed; `liquidParse` models the
external python-liquid parser (`some msg` when `from_string` raises). -/
structure Config where
  template_root : Option String
  allowed_variables : List String
  required_variables : List String
  fhir_validation : Bool
  blob_service : Option (String → Except String Bool)
  source_type : Option String
  liquidParse : String → Option String

/-- Process the include matches of one line (`_validate_includes` loop
body): empty-path error, optional blob-existence check, graph insert.
An oracle exception aborts the whole run, as an uncaught Python
exception would. -/
def includeLineGo (cfg : Config) (n : Nat) :
    List (List Char) → Graph → Except String (Graph × List String)
  | [], g => .ok (g, [])
  | p :: rest, g =>
    if (pyStrip p).isEmpty then do
      let (g', es) ← includeLineGo cfg n rest g
      .ok (g', ("Line " ++ toString n ++ ": Empty include path detected") :: es)
    else do
      let es1 ←
        match cfg.blob_service, cfg.source_type with
        | some oracle, some st =>
          if st = "" then pure []
          else do
            let bp := convertIncludeToBlobPath st (strOf p)
            let ex ← oracle bp
            pure (if ex then []
                  else ["Line " ++ toString n ++ ": Include file not found: '" ++
                        strOf p ++ "' (Expected blob path: '" ++ bp ++ "')"])
        | _, _ => pure []
      let g1 := addRootPath g (strOf p)
      let (g', es) ← includeLineGo cfg n rest g1
      .ok (g', es1 ++ es)

/-- Scan all lines for includes (`_validate_includes` outer loop). -/
def includesScanGo (cfg : Config) :
    List (Nat × List Char) → Graph → Except String (Graph × List String)
  | [], g => .ok (g, [])
  | (n, l) :: rest, g => do
    let (g1, es1) ← includeLineGo cfg n (includeMatches l) g
    let (g', es) ← includesScanGo cfg rest g1
    .ok (g', es1 ++ es)

/-- State of the `dfs` closure in `_validate_circular_includes`
(`visited` and `stack` are Python sets, modelled as lists). -/
structure DfsSt where
  visited : List String
  stack : List String
  errors : List String
deriving Repr

/-- The `dfs` closure.  The Python recursion terminates because every
node enters `visited`; the fuel bounds the recursion depth and
`graph.length + 2` exceeds any reachable depth (a recursion path visits
pairwise-distinct nodes, all but the last having a graph entry). -/
def dfsNode (g : Graph) : Nat → DfsSt → String → DfsSt
  | 0, st, _ => st
  | fuel + 1, st, node =>
    if st.stack.contains node then
      { st with errors := st.errors ++
          ["Circular include dependency detected: " ++ node] }
    else if st.visited.contains node then st
    else
      let st1 : DfsSt := ⟨node :: st.visited, node :: st.stack, st.errors⟩
      let st2 := (graphGet g node).foldl (dfsNode g fuel) st1
      { st2 with stack := st2.stack.erase node }

/-- `_validate_circular_includes`. -/
def validateCircularIncludes (g : Graph) : List String :=
  (dfsNode g (g.length + 2) ⟨[], [], []⟩ "ROOT").errors

/-- `_validate_includes`: scan, then cycle detection on the updated
graph. -/
def validateIncludes (cfg : Config) (g : Graph) (lines : List (List Char)) :
    Except String (Graph × List String) := do
  let (g', errs) ← includesScanGo cfg (List.enumFrom 1 lines) g
  .ok (g', errs ++ validateCircularIncludes g')

/-! ### The orchestrator -/

/-- Result dictionary of `validate`. -/
structure VResult where
  valid : Bool
  errors : List String
  warnings : List String
deriving Repr, DecidableEq

/-- The result dictionary construction of `validate`:
`\x7b"valid": len(errors) == 0, "errors": ..., "warnings": ...\x7d`. -/
def mkResult (errs warns : List String) : VResult :=
  ⟨errs.isEmpty, errs, warns⟩

/-- The error strings `validate` accumulates, in source pass order,
around the include-pass errors `incErrs`. -/
def validateErrs (cfg : Config) (text : List Char) (lines : List (List Char))
    (incErrs : List String) : List String :=
  (validateEncoding text).1 ++ (validateTemplateSize text).1 ++
  (validateEmptyContent text).1 ++ (validateSyntax cfg.liquidParse text).1 ++
  (validateTags lines).1 ++ validateTagKeywords lines ++
  (validateVariables cfg.allowed_variables cfg.required_variables text).1 ++
  (validateSecurity text).1 ++ (validateFilters lines).1 ++
  (validateExpressions lines).1 ++ (validateControlFlow lines).1 ++
  (validateObjects text).1 ++ (validateStrings lines).1 ++
  (validateComments text).1 ++ (validateWhitespaceControl text).1 ++
  incErrs ++ (validateAssignments lines).1 ++ (validateOutput text).1 ++
  (validatePerformance text lines).1 ++
  (if cfg.fhir_validation then validateFhirSpecific text else ([], [])).1 ++
  (if cfg.fhir_validation then validateFhirDependencies text else ([], [])).1

/-- The warning strings `validate` accumulates, in source pass order
(the include pass emits no warnings). -/
def validateWarns (cfg : Config) (text : List Char)
    (lines : List (List Char)) : List String :=
  (validateEncoding text).2 ++ (validateTemplateSize text).2 ++
  (validateEmptyContent text).2 ++ (validateSyntax cfg.liquidParse text).2 ++
  (validateTags lines).2 ++
  (validateVariables cfg.allowed_variables cfg.required_variables text).2 ++
  (validateSecurity text).2 ++ (validateFilters lines).2 ++
  (validateExpressions lines).2 ++ (validateControlFlow lines).2 ++
  (validateObjects text).2 ++ (validateStrings lines).2 ++
  (validateComments text).2 ++ (validateWhitespaceControl text).2 ++
  (validateAssignments lines).2 ++ (validateOutput text).2 ++
  (validatePerformance text lines).2 ++
  (if cfg.fhir_validation then validateFhirSpecific text else ([], [])).2 ++
  (if cfg.fhir_validation then validateFhirDependencies text else ([], [])).2

/-- `validate(template_text)` over scalar (surrogate-free) text: run
every pass in source order, threading the per-instance `include_graph`
(the only instance state `validate` does not reset).  Returns `.error`
when the blob-existence oracle raises, mirroring the uncaught Python
exception (the partially updated graph of the aborted call is not
modelled).  `validatePy` below extends this to the full Python `str`
domain, whose other uncaught exception — the unguarded encode of the
size pass on a lone surrogate — aborts before these passes run. -/
def validate (cfg : Config) (includeGraph : Graph) (templateText : String) :
    Except String (Graph × VResult) :=
  let text := templateText.data
  let lines := splitlines text
  match validateIncludes cfg includeGraph lines with
  | .error e => .error e
  | .ok (g', incErrs) =>
    .ok (g', mkResult (validateErrs cfg text lines incErrs)
                      (validateWarns cfg text lines))

/-! ### Python strings with lone surrogates

A Lean `Char` is a Unicode scalar value, but a Python `str` is a
sequence of arbitrary code points below `0x110000` and may contain
lone surrogates (reachable for example through JSON `\uD800` escapes).
On such a string `text.encode('utf-8')` raises `UnicodeEncodeError`:
`_validate_encoding` wraps its encode in `try`/`except` and turns the
failure into an error string, while the encode in
`_validate_template_size` is unguarded and the exception escapes
`validate()` before any later pass runs.  `PyText` models the full
code-point domain at the `validate()` boundary; because the size pass
aborts every unencodable call, all later passes only ever see
surrogate-free text and keep their scalar `List Char` form. -/

/-- A Python `str` as its raw code-point sequence (Python guarantees
every element is below `0x110000`; lone surrogates are allowed). -/
abbrev PyText : Type := List Nat

/-- A lone surrogate code point (`0xD800`–`0xDFFF`), the exact inputs
on which `str.encode('utf-8')` raises `UnicodeEncodeError`. -/
def isLoneSurrogate (n : Nat) : Bool := 0xD800 ≤ n ∧ n ≤ 0xDFFF

/-- `text.encode('utf-8')` succeeds iff the string is free of lone
surrogates. -/
def pyEncodable (t : PyText) : Bool := t.all fun n => ! isLoneSurrogate n

/-- The scalar text a Python string denotes: exact on every code point
that is a Unicode scalar value (a lone surrogate, which no pass beyond
the raising size check ever observes, falls to `'\0'`). -/
def charsOf (t : PyText) : List Char := t.map Char.ofNat

/-- `_validate_encoding` over the full code-point domain: the guarded
`text.encode('utf-8')` turns an unencodable string into an error
diagnostic (the interpolated `str(e)` position detail is abbreviated),
then the BOM check warns; the warning component coincides with the
scalar pass's, since a lone surrogate first character is not the BOM
code point `0xFEFF`. -/
def validateEncodingPy (t : PyText) : List String × List String :=
  ((if pyEncodable t then []
    else ["UTF-8 encoding error: 'utf-8' codec can't encode character: " ++
          "surrogates not allowed"]),
   (validateEncoding (charsOf t)).2)

/-- `_validate_template_size` over the full code-point domain: the
unguarded `len(text.encode('utf-8'))` raises `UnicodeEncodeError` on a
lone surrogate (message abbreviated), otherwise the pass is the scalar
one. -/
def validateTemplateSizePy (t : PyText) :
    Except String (List String × List String) :=
  if pyEncodable t then Except.ok (validateTemplateSize (charsOf t))
  else Except.error ("UnicodeEncodeError: 'utf-8' codec can't encode " ++
    "character: surrogates not allowed")

/-- `validate(template_text)` at the true Python `str` boundary.
`_validate_encoding` runs first and cannot raise; the unguarded encode
in `_validate_template_size` then raises on an unencodable string and
aborts the call, so its diagnostics and every later pass are reached
only on surrogate-free text, where the scalar `validate` pipeline (its
internal encoding and size passes coinciding with `validateEncodingPy`
and `validateTemplateSizePy` there) is the source's behaviour. -/
def validatePy (cfg : Config) (g : Graph) (t : PyText) :
    Except String (Graph × VResult) :=
  match validateTemplateSizePy t with
  | Except.error e => Except.error e
  | Except.ok _ => validate cfg g (strOf (charsOf t))

/-- Decidable equality for `Except` results (used to evaluate the model
at concrete inputs). -/
instance {e a : Type} [DecidableEq e] [DecidableEq a] :
    DecidableEq (Except e a) := fun x y =>
  match x, y with
  | .error u, .error v =>
    if h : u = v then .isTrue (by rw [h])
    else .isFalse (fun hh => h (Except.error.inj hh))
  | .ok u, .ok v =>
    if h : u = v then .isTrue (by rw [h])
    else .isFalse (fun hh => h (Except.ok.inj hh))
  | .error _, .ok _ => .isFalse (fun hh => Except.noConfusion hh)
  | .ok _, .error _ => .isFalse (fun hh => Except.noConfusion hh)

/-! ### Concrete configurations used by witnesses -/

/-- The default configuration of `__init__` (no allow/required lists,
FHIR validation on, no blob service or namespace) with a liquid-parse
oracle that never raises. -/
def cfgDefault : Config := ⟨none, [], [], true, none, none, fun _ => none⟩

/-- The FHIR `resourceType` advisory emitted for templates lacking the
marker. -/
def resourceTypeWarning : String :=
  "FHIR 'resourceType' field not found in template"

/-- A configuration whose blob-existence oracle always raises. -/
def cfgThrowing : Config :=
  ⟨none, [], [], true, some (fun _ => .error "Blob service unavailable"),
   some "HL7", fun _ => none⟩

/-- The hard error of `_validate_fhir_dependencies`. -/
def fhirHardError : String :=
  "FHIR validation failed: Templates using '\x7b% evaluate %\x7d' " ++
  "must contain '\x7b% include %\x7d' tags."

/-- An evaluate-only template whose single line matches the `ID/Bundle`
ID-only exemption pattern. -/
def tIdOnly : String := "\x7b% evaluate id using 'ID/Bundle' %\x7d"

/-- 21-line template: evaluate on line 1, `x` on lines 2–20, include on
line 21 (20 lines after the evaluate). -/
def tWindow : String :=
  "\x7b% evaluate pat using \"Patient\" %\x7d\n" ++
  String.join (List.replicate 19 "x\n") ++
  "\x7b% include \"A\" %\x7d"

/-- The warning the window check emits for line 1 of `tWindow`. -/
def tWindowWarning : String :=
  "Line 1: Evaluated variable 'pat' (resource: 'Patient') has no " ++
  "corresponding '\x7b% include %\x7d' statement within 20 lines. " ++
  "Verify this resource is included in the Bundle output."

/-- The comment-only template of the end-to-end scenario. -/
def tComment : String := "\x7b% comment %\x7d\nTODO\n\x7b% endcomment %\x7d"

/-- A default configuration around a given liquid-parse oracle. -/
def cfgWith (lp : String → Option String) : Config :=
  ⟨none, [], [], true, none, none, lp⟩

/-- The storage-key rule as the spec words it: split on `/`; the final
segment is the file name; prefix `_` unless already present; append
`.liquid` unless already present; rejoin any preceding segments behind
the namespace. -/
def specStorageKey (ns path : String) : String :=
  let parts := splitOn '/' path.data
  let file := parts.getLastD []
  let f1 := if ['_'].isPrefixOf file then file else '_' :: file
  let f2 := if ".liquid".data.isSuffixOf f1 then f1 else f1 ++ ".liquid".data
  if parts.length > 1 then
    ns ++ "/" ++ strOf (List.intercalate ['/'] parts.dropLast) ++ "/" ++ strOf f2
  else ns ++ "/" ++ strOf f2

/-! ### Specification-side views of the include graph -/

/-- The children of the synthetic `ROOT` node. -/
def rootCh (g : Graph) : List String := graphGet g "ROOT"

/-- Set insertion into a children list (the model of `set.add`). -/
def addChild (ch : List String) (p : String) : List String :=
  if ch.contains p then ch else ch ++ [p]

/-- Fold `addChild` over a path list. -/
def addChildren (ch : List String) (qs : List String) : List String :=
  qs.foldl addChild ch

/-- Well-formed include graphs: exactly the states reachable from
`__init__` (`\x7b\x7d`), namely empty or a single duplicate-free `ROOT`
entry. -/
def GraphWF (g : Graph) : Prop :=
  g = [] ∨ ∃ ch, ch.Nodup ∧ g = [("ROOT", ch)]

/-- The graph after processing one line's include matches (specification
view of the `includeLineGo` graph component). -/
def pathFoldLine (g : Graph) (ps : List (List Char)) : Graph :=
  ps.foldl
    (fun g p => if (pyStrip p).isEmpty then g else addRootPath g (strOf p)) g

/-- The graph after the whole include scan. -/
def scanGraph (ls : List (Nat × List Char)) (g : Graph) : Graph :=
  ls.foldl (fun g nl => pathFoldLine g (includeMatches nl.2)) g

/-- The include paths a template's lines discover and record in the
graph (non-empty after stripping, in scan order). -/
def discoveredPaths (lines : List (List Char)) : List String :=
  lines.flatMap fun l =>
    ((includeMatches l).filter fun p => ¬ (pyStrip p).isEmpty).map strOf

/-- `discoveredPaths` over enumerated lines. -/
def discoveredPathsLS (ls : List (Nat × List Char)) : List String :=
  ls.flatMap fun nl =>
    ((includeMatches nl.2).filter fun p => ¬ (pyStrip p).isEmpty).map strOf

/-- The circular-dependency error message for a node. -/
def circMsg (node : String) : String :=
  "Circular include dependency detected: " ++ node

/-! ### C1: `valid` is exactly `errors.isEmpty` -/

/-- The constructed result's `valid` field is the emptiness of its
`errors` field. -/
theorem mkResult_valid (errs warns : List String) :
    (mkResult errs warns).valid = (mkResult errs warns).errors.isEmpty := rfl

/-- C1: for every configuration, instance graph and template text, a
normally returning `validate` yields a result whose `valid` flag equals
the emptiness of its `errors` list; the `warnings` list plays no role in
the verdict. -/
theorem validate_valid_iff_errors_empty (cfg : Config) (g : Graph)
    (t : String) (g' : Graph) (r : VResult)
    (h : validate cfg g t = .ok (g', r)) : r.valid = r.errors.isEmpty := by
  simp only [validate] at h
  rcases hi : validateIncludes cfg g (splitlines t.data) with e | p
  · rw [hi] at h
    exact Except.noConfusion h
  · rcases p with ⟨g2, incErrs⟩
    rw [hi] at h
    injection h with h1
    injection h1 with hg hr
    exact hr ▸ mkResult_valid _ _

set_option maxHeartbeats 2000000 in
/-- Witness for `validate_valid_iff_errors_empty` at the template
`"x"` under the default configuration. -/
theorem validate_valid_iff_errors_empty_witness :
    (VResult.mk true [] [resourceTypeWarning]).valid
      = (VResult.mk true [] [resourceTypeWarning]).errors.isEmpty :=
  validate_valid_iff_errors_empty cfgDefault [] "x" []
    (VResult.mk true [] [resourceTypeWarning]) (by decide)

/-! ### C2: exception propagation through `validate`

Exactly two passes guard an exception internally: `_validate_syntax`
catches the python-liquid parse failure and `_validate_encoding`
catches the `UnicodeEncodeError` of its `text.encode('utf-8')` probe.
Everything else escapes `validate()`: an exception raised by the
blob-existence oracle inside `_validate_includes` propagates (the
spec's §4.4 documents exactly this), refuting the claim that failures
become error diagnostics at the `validate()` boundary; and the
unguarded `text.encode('utf-8')` in `_validate_template_size` raises
on a Python string containing a lone surrogate, before any later pass
runs.  Over the full code-point domain (`PyText`/`validatePy`), with
an oracle that never raises, `validate` returns normally exactly on
the UTF-8-encodable strings. -/

/-- C2 counterexample: with a raising oracle configured, validating a
template containing one include propagates the oracle's exception out
of `validate` instead of converting it into an error diagnostic. -/
theorem validate_propagates_oracle_exception :
    validate cfgThrowing [] "\x7b% include 'A' %\x7d" =
      .error "Blob service unavailable" := by decide

/-- Reduction of an `Except` bind on a success value. -/
theorem ebind_ok {e a b : Type} (x : a) (k : a → Except e b) :
    ((Except.ok x : Except e a) >>= k) = k x := rfl

/-- Processing one line's include paths returns normally whenever the
configured oracle never raises. -/
theorem includeLineGo_total (cfg : Config) (n : Nat)
    (hor : ∀ f, cfg.blob_service = some f → ∀ p, ∃ b, f p = .ok b) :
    ∀ (ps : List (List Char)) (g : Graph),
      ∃ gp, includeLineGo cfg n ps g = .ok gp := by
  intro ps
  induction ps with
  | nil => exact fun g => ⟨(g, []), rfl⟩
  | cons p rest ih =>
    intro g
    by_cases hp : (pyStrip p).isEmpty
    · obtain ⟨⟨g1, es⟩, hgo⟩ := ih g
      refine ⟨(g1, ("Line " ++ toString n ++ ": Empty include path detected")
        :: es), ?_⟩
      simp only [includeLineGo, hp, if_true]
      rw [hgo]
      rfl
    · obtain ⟨⟨g1, es⟩, hgo⟩ := ih (addRootPath g (strOf p))
      rcases hbs : cfg.blob_service with _ | f
      · refine ⟨(g1, [] ++ es), ?_⟩
        simp only [includeLineGo, hp, if_false, hbs]
        rcases cfg.source_type with _ | st <;> · rw [hgo]; rfl
      · rcases hst : cfg.source_type with _ | st
        · refine ⟨(g1, [] ++ es), ?_⟩
          simp only [includeLineGo, hp, if_false, hbs, hst]
          rw [hgo]
          rfl
        · by_cases hempty : st = ""
          · refine ⟨(g1, [] ++ es), ?_⟩
            simp only [includeLineGo, hp, if_false, hbs, hst, hempty, if_true]
            rw [hgo]
            rfl
          · obtain ⟨b, hb⟩ :=
              hor f hbs (convertIncludeToBlobPath st (strOf p))
            refine ⟨(g1, (if b then []
              else ["Line " ++ toString n ++ ": Include file not found: '" ++
                    strOf p ++ "' (Expected blob path: '" ++
                    convertIncludeToBlobPath st (strOf p) ++ "')"]) ++ es), ?_⟩
            simp only [includeLineGo, hp, if_false, hbs, hst, hempty, hb]
            rw [hgo]
            rfl

/-- The include scan returns normally whenever the configured oracle
never raises. -/
theorem includesScanGo_total (cfg : Config)
    (hor : ∀ f, cfg.blob_service = some f → ∀ p, ∃ b, f p = .ok b) :
    ∀ (ls : List (Nat × List Char)) (g : Graph),
      ∃ gp, includesScanGo cfg ls g = .ok gp := by
  intro ls
  induction ls with
  | nil => exact fun g => ⟨(g, []), rfl⟩
  | cons nl rest ih =>
    intro g
    obtain ⟨⟨g1, es1⟩, h1⟩ := includeLineGo_total cfg nl.1 hor
      (includeMatches nl.2) g
    obtain ⟨⟨g2, es2⟩, h2⟩ := ih g1
    refine ⟨(g2, es1 ++ es2), ?_⟩
    calc includesScanGo cfg (nl :: rest) g
        = (do
            let d2 ← includesScanGo cfg rest g1
            Except.ok (d2.1, es1 ++ d2.2)) := by
          simp only [includesScanGo]
          rw [h1]
          rfl
      _ = .ok (g2, es1 ++ es2) := by
          rw [h2]
          rfl

/-- Over scalar (surrogate-free) text, `validate` never throws
provided the configured blob-existence oracle never raises: the
liquid-parse failures and the encoding pass's encode are both caught
in-pass, and on encodable text the size pass's encode succeeds. -/
theorem validate_ok_of_oracle_total (cfg : Config) (g : Graph) (t : String)
    (hor : ∀ f, cfg.blob_service = some f → ∀ p, ∃ b, f p = .ok b) :
    (validate cfg g t).isOk = true := by
  obtain ⟨⟨g1, es⟩, h⟩ := includesScanGo_total cfg hor
    (List.enumFrom 1 (splitlines t.data)) g
  have hv : validateIncludes cfg g (splitlines t.data) =
      .ok (g1, es ++ validateCircularIncludes g1) := by
    simp only [validateIncludes]
    rw [h]
    rfl
  simp only [validate]
  rw [hv]
  rfl

set_option maxHeartbeats 1000000 in
/-- At the default configuration (no oracle) the scalar totality lemma
applies vacuously. -/
theorem validate_ok_of_oracle_total_witness :
    (validate cfgDefault [] "\x7b% include 'A' %\x7d").isOk = true :=
  validate_ok_of_oracle_total cfgDefault [] "\x7b% include 'A' %\x7d"
    (fun f hf => by exact absurd hf (by simp [cfgDefault]))

set_option maxHeartbeats 1000000 in
/-- C2 amended: `validate()` keeps exactly two in-pass exception
handlers — the python-liquid parse in `_validate_syntax` and the
guarded `text.encode('utf-8')` in `_validate_encoding` — and two
uncaught escape routes: a blob-oracle exception inside
`_validate_includes` (the counterexample above) and the
`UnicodeEncodeError` of the unguarded encode in
`_validate_template_size` on a lone-surrogate string.  With an oracle
that never raises, a Python-string input validates normally if and
only if it is UTF-8 encodable. -/
theorem validatePy_ok_iff_encodable (cfg : Config) (g : Graph)
    (t : PyText) (hcp : ∀ n ∈ t, n < 0x110000)
    (hor : ∀ f, cfg.blob_service = some f → ∀ p, ∃ b, f p = .ok b) :
    (validatePy cfg g t).isOk = true ↔ pyEncodable t = true := by
  constructor
  · intro h
    cases hx : pyEncodable t with
    | true => rfl
    | false =>
      rw [validatePy, validateTemplateSizePy,
        if_neg (by rw [hx]; exact Bool.false_ne_true)] at h
      exact Bool.noConfusion h
  · intro he
    rw [validatePy, validateTemplateSizePy, if_pos he]
    exact validate_ok_of_oracle_total cfg g _ hor

set_option maxHeartbeats 1000000 in
/-- Witness for `validatePy_ok_iff_encodable` at the one-lone-surrogate
string `'\uD800'` under the default configuration: the unguarded size
encode raises out of `validate`, and the equivalence instantiates with
both sides false. -/
theorem validatePy_ok_iff_encodable_witness :
    validatePy cfgDefault [] [0xD800] =
      Except.error ("UnicodeEncodeError: 'utf-8' codec can't encode " ++
        "character: surrogates not allowed") ∧
    ((validatePy cfgDefault [] [0xD800]).isOk = true ↔
      pyEncodable [0xD800] = true) :=
  ⟨by decide,
   validatePy_ok_iff_encodable cfgDefault [] [0xD800] (by decide)
     (fun f hf => by exact absurd hf (by simp [cfgDefault]))⟩

/-! ### C3: the evaluate/include hard error and the ID-only exemptions

In `_validate_fhir_dependencies` the whole-template hard check
(`has_evaluate and not has_include`) appends its error and returns
before `ID_ONLY_PATTERNS` is ever consulted; the exemptions only guard
the per-line windowed warning. -/

set_option maxHeartbeats 1000000 in
/-- C3 counterexample: the template consists of one evaluate tag whose
line contains the `ID/Bundle` exemption pattern and no include tag, yet
the hard error is emitted — the exemption does not skip the hard
check. -/
theorem fhir_hard_error_despite_id_only_pattern :
    containsSub "ID/Bundle".data tIdOnly.data = true ∧
    hasEvaluateTag tIdOnly.data = true ∧
    hasIncludeTag tIdOnly.data = false ∧
    validateFhirDependencies tIdOnly.data = ([fhirHardError], []) :=
  ⟨by decide, by decide, by decide, by decide⟩

/-- C3 amended: whenever the text contains an evaluate tag but no
include tag anywhere, `_validate_fhir_dependencies` emits exactly the
one hard error (and nothing else), unconditionally — the three ID-only
exemption patterns are consulted only by the per-line windowed warning,
never by this hard check. -/
theorem fhirDependencies_hard_error (text : List Char)
    (he : hasEvaluateTag text = true) (hni : hasIncludeTag text = false) :
    validateFhirDependencies text = ([fhirHardError], []) := by
  have hc : (hasEvaluateTag text = true) ∧ ¬ (hasIncludeTag text = true) :=
    ⟨he, by rw [hni]; simp⟩
  unfold validateFhirDependencies
  rw [if_pos hc]
  rfl

/-- Witness for `fhirDependencies_hard_error` at a plain
evaluate-without-include template. -/
theorem fhirDependencies_hard_error_witness :
    hasEvaluateTag "\x7b% evaluate a using 'P' %\x7d".data = true ∧
    hasIncludeTag "\x7b% evaluate a using 'P' %\x7d".data = false ∧
    validateFhirDependencies "\x7b% evaluate a using 'P' %\x7d".data =
      ([fhirHardError], []) :=
  ⟨by decide, by decide,
   fhirDependencies_hard_error _ (by decide) (by decide)⟩

/-! ### C4: the evaluate/include search window

The source comment says `+19 to check 20 lines ahead`, but
`range(search_start, line_num + 19)` is exclusive at the top: for an
evaluate on line `n` the scanned indices are `n-21 .. n+18` (0-based,
skipping `n-1`), i.e. 20 lines before but only 19 lines after.  An
include exactly 20 lines after the evaluate is outside the scanned
window and the warning still fires. -/

set_option maxHeartbeats 4000000 in
set_option maxRecDepth 8000 in
/-- C4 failing input: `tWindow` has an evaluate on line 1 (matching no
ID-only exemption), an include on line 21 — exactly 20 lines after —
and no other include; the claimed symmetric 20/20 window would find the
include and emit no warning, but the code emits the warning because the
window scans only 19 lines ahead. -/
theorem fhir_window_misses_include_20_lines_after :
    (splitlines tWindow.data).length = 21 ∧
    evalPatSearch ((splitlines tWindow.data).getD 0 []) =
      some ("pat".data, "Patient".data) ∧
    idOnlyMatch ((splitlines tWindow.data).getD 0 []) = false ∧
    reSearch tryIncludeTag ((splitlines tWindow.data).getD 20 []) = true ∧
    validateFhirDependencies tWindow.data = ([], [tWindowWarning]) :=
  ⟨by decide, by decide, by decide, by decide, by decide⟩

/-! ### C5: the comment-only end-to-end scenario

Every pass is silent on `"\x7b% comment %\x7d\nTODO\n\x7b% endcomment %\x7d"`
except `_validate_fhir_specific`, which is on by default and warns that
no `resourceType` marker is present.  The template is valid with zero
errors but one warning, not zero. -/

set_option maxHeartbeats 2000000 in
/-- C5 counterexample: under the default configuration the comment-only
template produces a non-empty warnings list (the `resourceType`
advisory), contradicting the claimed zero warnings. -/
theorem comment_template_warning_counterexample :
    validate cfgDefault [] tComment =
      .ok ([], ⟨true, [], [resourceTypeWarning]⟩) ∧
    [resourceTypeWarning] ≠ ([] : List String) :=
  ⟨by decide, by decide⟩

set_option maxHeartbeats 2000000 in
/-- C5 amended: with the default configuration and any liquid-parse
oracle that accepts the template (python-liquid parses balanced comment
blocks), validating the comment-only template returns `valid = true`,
zero errors and exactly one warning, the FHIR `resourceType`
advisory. -/
theorem validate_comment_template (lp : String → Option String)
    (hlp : lp tComment = none) :
    validate (cfgWith lp) [] tComment =
      .ok ([], ⟨true, [], [resourceTypeWarning]⟩) := by
  have hfhir : hasFhirTags tComment.data = false := by decide
  have hs : validateSyntax lp tComment.data = ([], []) := by
    unfold validateSyntax
    rw [hfhir]
    have hstr : strOf tComment.data = tComment := rfl
    rw [if_neg (by simp), hstr, hlp]
    decide
  have hinc : validateIncludes (cfgWith lp) [] (splitlines tComment.data) =
      .ok ([], []) := rfl
  simp only [validate, validateErrs, validateWarns]
  rw [show (cfgWith lp).liquidParse = lp from rfl]
  rw [hs, hinc]
  rw [show (cfgWith lp).allowed_variables = [] from rfl]
  rw [show (cfgWith lp).required_variables = [] from rfl]
  rw [show (cfgWith lp).fhir_validation = true from rfl]
  decide

set_option maxHeartbeats 2000000 in
/-- Witness for `validate_comment_template` with the non-raising
oracle of the default configuration. -/
theorem validate_comment_template_witness :
    validate cfgDefault [] tComment =
      .ok ([], ⟨true, [], [resourceTypeWarning]⟩) :=
  validate_comment_template (fun _ => none) rfl

/-! ### C7: include-path to storage-key conversion -/

/-- `str.split` never returns an empty list. -/
theorem splitOn_ne_nil (sep : Char) (cs : List Char) : splitOn sep cs ≠ [] := by
  cases cs with
  | nil => simp [splitOn]
  | cons c cs =>
    unfold splitOn
    by_cases hc : c = sep
    · simp [hc]
    · simp only [hc, if_false]
      cases splitOn sep cs <;> simp

/-- C7: for every non-empty include path and every namespace,
`_convert_include_to_blob_path` computes exactly the spec's storage-key
rule (the source's `len(parts) == 0` branch is dead because `split`
never returns an empty list, so the hypothesis is not even needed for
the equality — it is kept to match the claim). -/
theorem convert_include_matches_spec (ns path : String) (h : path ≠ "") :
    convertIncludeToBlobPath ns path = specStorageKey ns path := by
  unfold convertIncludeToBlobPath specStorageKey
  cases hp : splitOn '/' path.data with
  | nil => exact absurd hp (splitOn_ne_nil _ _)
  | cons a l => rfl

/-- Witness for `convert_include_matches_spec` at the spec's worked
example: `Resource/Organization` with namespace `HL7` resolves to
`HL7/Resource/_Organization.liquid`. -/
theorem convert_include_matches_spec_witness :
    ("Resource/Organization" : String) ≠ "" ∧
    convertIncludeToBlobPath "HL7" "Resource/Organization" =
      specStorageKey "HL7" "Resource/Organization" ∧
    convertIncludeToBlobPath "HL7" "Resource/Organization" =
      "HL7/Resource/_Organization.liquid" :=
  ⟨by decide,
   convert_include_matches_spec "HL7" "Resource/Organization" (by decide),
   by decide⟩

/-! ### C8: bare `=` in conditions and the `==` suppression

`_validate_expressions` warns only when
`re.search(r'\w+\s*=\s*\w+', expr)` matches **and** `'=='` occurs
nowhere in the condition: a `==` anywhere in the same condition
suppresses the warning, contrary to the claim's "even when a separate
`==` also appears". -/

set_option maxHeartbeats 1000000 in
/-- C8 counterexample: in `\x7b% if a == b or c = d %\x7d` the condition
contains a bare single `=` between two word tokens (`c = d`) and a
separate `==`; the claim says the warning is still emitted, but the
pass emits neither errors nor warnings for this line. -/
theorem assign_warning_suppressed_by_double_eq :
    extractCond "\x7b% if a == b or c = d %\x7d".data =
      some "a == b or c = d".data ∧
    hasAssignInCond "a == b or c = d".data = true ∧
    containsSub ['=', '='] "a == b or c = d".data = true ∧
    expressionsLine 1 "\x7b% if a == b or c = d %\x7d".data = ([], []) :=
  ⟨by decide, by decide, by decide, by decide⟩

/-- C8 amended: for the condition `e` extracted from an `if`/`unless`
line, the "possible assignment in condition" warning is emitted exactly
when the bare-assignment pattern `\w+\s*=\s*\w+` matches `e` and `==`
occurs nowhere in `e`; any `==` elsewhere in the same condition
suppresses the warning. -/
theorem expressions_warning_iff (n : Nat) (line e : List Char)
    (hx : extractCond line = some e) :
    (expressionsLine n line).2 =
      (if hasAssignInCond e ∧ ¬ containsSub ['=', '='] e then
        ["Possible assignment in condition at line " ++ toString n]
      else []) := by
  unfold expressionsLine
  rw [hx]

/-- Witness for `expressions_warning_iff`: a condition with a bare `=`
and no `==` receives the warning. -/
theorem expressions_warning_iff_witness :
    extractCond "\x7b% if a = b %\x7d".data = some "a = b".data ∧
    (expressionsLine 1 "\x7b% if a = b %\x7d".data).2 =
      (if hasAssignInCond "a = b".data ∧
          ¬ containsSub ['=', '='] "a = b".data then
        ["Possible assignment in condition at line " ++ toString 1]
      else []) ∧
    (expressionsLine 1 "\x7b% if a = b %\x7d".data).2 =
      ["Possible assignment in condition at line 1"] :=
  ⟨by decide, expressions_warning_iff 1 _ _ (by decide), by decide⟩

/-! ### Graph lemmas -/

theorem mem_addChild (ch : List String) (p q : String) :
    q ∈ addChild ch p ↔ q ∈ ch ∨ q = p := by
  unfold addChild
  by_cases h : p ∈ ch
  · rw [if_pos (by simpa using h)]
    constructor
    · exact fun hq => Or.inl hq
    · rintro (hq | rfl)
      · exact hq
      · exact h
  · rw [if_neg (by simpa using h)]
    simp

theorem addChild_of_mem {ch : List String} {p : String} (h : p ∈ ch) :
    addChild ch p = ch := by
  unfold addChild
  rw [if_pos (by simpa using h)]

theorem nodup_addChild {ch : List String} (p : String) (h : ch.Nodup) :
    (addChild ch p).Nodup := by
  unfold addChild
  by_cases hp : p ∈ ch
  · rw [if_pos (by simpa using hp)]
    exact h
  · rw [if_neg (by simpa using hp)]
    simpa [List.nodup_append] using ⟨h, hp⟩

theorem mem_addChildren (qs : List String) :
    ∀ (ch : List String) (q : String),
      q ∈ addChildren ch qs ↔ q ∈ ch ∨ q ∈ qs := by
  induction qs with
  | nil => simp [addChildren]
  | cons a qs ih =>
    intro ch q
    show q ∈ addChildren (addChild ch a) qs ↔ _
    rw [ih, mem_addChild]
    simp only [List.mem_cons]
    tauto

theorem nodup_addChildren (qs : List String) :
    ∀ ch : List String, ch.Nodup → (addChildren ch qs).Nodup := by
  induction qs with
  | nil => exact fun ch h => h
  | cons a qs ih =>
    intro ch h
    exact ih (addChild ch a) (nodup_addChild a h)

theorem addChildren_of_subset (qs : List String) :
    ∀ ch : List String, (∀ q ∈ qs, q ∈ ch) → addChildren ch qs = ch := by
  induction qs with
  | nil => exact fun ch _ => rfl
  | cons a qs ih =>
    intro ch h
    show addChildren (addChild ch a) qs = ch
    rw [addChild_of_mem (h a (by simp))]
    exact ih ch fun q hq => h q (by simp [hq])

theorem addChildren_idem (ch : List String) (qs : List String) :
    addChildren (addChildren ch qs) qs = addChildren ch qs :=
  addChildren_of_subset qs _ fun q hq => (mem_addChildren qs ch q).mpr (Or.inr hq)

theorem addRootPath_wf {g : Graph} (p : String) (h : GraphWF g) :
    GraphWF (addRootPath g p) ∧
      rootCh (addRootPath g p) = addChild (rootCh g) p := by
  rcases h with rfl | ⟨ch, hnd, rfl⟩
  · refine ⟨Or.inr ⟨[p], by simp, rfl⟩, rfl⟩
  · have he : addRootPath [("ROOT", ch)] p = [("ROOT", addChild ch p)] := rfl
    rw [he]
    exact ⟨Or.inr ⟨addChild ch p, nodup_addChild p hnd, rfl⟩, rfl⟩

theorem pathFoldLine_wf (ps : List (List Char)) :
    ∀ g : Graph, GraphWF g →
      GraphWF (pathFoldLine g ps) ∧
      rootCh (pathFoldLine g ps) =
        addChildren (rootCh g)
          (((ps.filter fun p => ¬ (pyStrip p).isEmpty)).map strOf) := by
  induction ps with
  | nil => exact fun g h => ⟨h, rfl⟩
  | cons p rest ih =>
    intro g h
    by_cases hp : (pyStrip p).isEmpty
    · have hpe : pyStrip p = [] := by simpa using hp
      have hstep : pathFoldLine g (p :: rest) = pathFoldLine g rest := by
        simp only [pathFoldLine, List.foldl_cons]
        rw [if_pos hp]
      rw [hstep]
      have hfil : ((p :: rest).filter fun q => ¬ (pyStrip q).isEmpty) =
          (rest.filter fun q => ¬ (pyStrip q).isEmpty) := by
        simp [List.filter_cons, hpe]
      rw [hfil]
      exact ih g h
    · have hstep : pathFoldLine g (p :: rest) =
          pathFoldLine (addRootPath g (strOf p)) rest := by
        simp only [pathFoldLine, List.foldl_cons]
        rw [if_neg hp]
      rw [hstep]
      have hne : ¬ pyStrip p = [] := fun he => hp (by simp [he])
      have hfil : ((p :: rest).filter fun q => ¬ (pyStrip q).isEmpty) =
          p :: (rest.filter fun q => ¬ (pyStrip q).isEmpty) := by
        simp [List.filter_cons, hne]
      rw [hfil]
      obtain ⟨hwf1, hch1⟩ := addRootPath_wf (strOf p) h
      obtain ⟨hwf2, hch2⟩ := ih (addRootPath g (strOf p)) hwf1
      refine ⟨hwf2, ?_⟩
      rw [hch2, hch1]
      rfl

theorem scanGraph_wf (ls : List (Nat × List Char)) :
    ∀ g : Graph, GraphWF g →
      GraphWF (scanGraph ls g) ∧
      rootCh (scanGraph ls g) =
        addChildren (rootCh g) (discoveredPathsLS ls) := by
  induction ls with
  | nil => exact fun g h => ⟨h, rfl⟩
  | cons nl rest ih =>
    intro g h
    have hstep : scanGraph (nl :: rest) g =
        scanGraph rest (pathFoldLine g (includeMatches nl.2)) := rfl
    rw [hstep]
    obtain ⟨hwf1, hch1⟩ := pathFoldLine_wf (includeMatches nl.2) g h
    obtain ⟨hwf2, hch2⟩ := ih _ hwf1
    refine ⟨hwf2, ?_⟩
    rw [hch2, hch1]
    show addChildren _ _ = addChildren (rootCh g)
      ((((includeMatches nl.2).filter fun p => ¬ (pyStrip p).isEmpty)).map strOf
        ++ discoveredPathsLS rest)
    unfold addChildren
    rw [List.foldl_append]

theorem discoveredPathsLS_enum (lines : List (List Char)) :
    ∀ k : Nat, discoveredPathsLS (List.enumFrom k lines) =
      discoveredPaths lines := by
  induction lines with
  | nil => intro k; rfl
  | cons l ls ih =>
    intro k
    show (((includeMatches l).filter fun p => ¬ (pyStrip p).isEmpty)).map strOf
        ++ discoveredPathsLS (List.enumFrom (k + 1) ls) = _
    rw [ih (k + 1)]
    rfl

/-! ### Cycle-detection lemmas -/

theorem contains_eq_mem (l : List String) (a : String) :
    l.contains a = true ↔ a ∈ l :=
  ⟨List.mem_of_elem_eq_true, List.elem_eq_true_of_mem⟩

theorem graphGet_root (ch : List String) :
    graphGet [("ROOT", ch)] "ROOT" = ch := rfl

theorem graphGet_root_ne (ch : List String) (c : String) (hc : c ≠ "ROOT") :
    graphGet [("ROOT", ch)] c = [] := by
  simp [graphGet, List.find?, hc.symm]

/-- One unfolding of the `dfs` closure with the state fields exposed. -/
theorem dfsNode_step (g : Graph) (fuel : Nat) (vis stk errs : List String)
    (node : String) :
    dfsNode g (fuel + 1) ⟨vis, stk, errs⟩ node =
      if stk.contains node then ⟨vis, stk, errs ++ [circMsg node]⟩
      else if vis.contains node then ⟨vis, stk, errs⟩
      else
        { ((graphGet g node).foldl (dfsNode g fuel)
            ⟨node :: vis, node :: stk, errs⟩) with
          stack := ((graphGet g node).foldl (dfsNode g fuel)
            ⟨node :: vis, node :: stk, errs⟩).stack.erase node } := rfl

theorem dfsFold_root (ch0 : List String) (cs : List String) :
    ∀ (vis errs : List String),
      ∃ vis', cs.foldl (dfsNode [("ROOT", ch0)] 2) ⟨vis, ["ROOT"], errs⟩ =
        ⟨vis', ["ROOT"],
         errs ++ List.replicate (cs.count "ROOT") (circMsg "ROOT")⟩ := by
  induction cs with
  | nil =>
    intro vis errs
    exact ⟨vis, by simp⟩
  | cons c cs ih =>
    intro vis errs
    rw [List.foldl_cons]
    by_cases hc : c = "ROOT"
    · subst hc
      rw [dfsNode_step, if_pos (by decide)]
      obtain ⟨vis', hv'⟩ := ih vis (errs ++ [circMsg "ROOT"])
      refine ⟨vis', ?_⟩
      rw [hv', List.count_cons_self, List.replicate_succ]
      simp [List.append_assoc]
    · have hnst : ¬ ((["ROOT"] : List String).contains c = true) := by
        intro hcon
        have := (contains_eq_mem _ _).mp hcon
        simp at this
        exact hc this
      have hcount : List.count "ROOT" (c :: cs) = List.count "ROOT" cs :=
        List.count_cons_of_ne (fun h => hc h.symm) _
      by_cases hv : (vis.contains c = true)
      · rw [dfsNode_step, if_neg hnst, if_pos hv]
        obtain ⟨vis', hrec⟩ := ih vis errs
        exact ⟨vis', by rw [hrec, hcount]⟩
      · rw [dfsNode_step, if_neg hnst, if_neg hv,
          graphGet_root_ne ch0 c hc, List.foldl_nil]
        have herase : ((c :: ["ROOT"] : List String).erase c) = ["ROOT"] :=
          List.erase_cons_head c _
        obtain ⟨vis', hrec⟩ := ih (c :: vis) errs
        refine ⟨vis', ?_⟩
        show List.foldl (dfsNode [("ROOT", ch0)] 2)
          (⟨c :: vis, (c :: ["ROOT"] : List String).erase c, errs⟩ : DfsSt)
          cs = _
        rw [herase, hrec, hcount]

/-- For every reachable include graph, the cycle pass emits exactly one
`ROOT` circular-dependency error when `"ROOT"` is among the root's
children, and nothing otherwise. -/
theorem circ_of_wf (g : Graph) (h : GraphWF g) :
    validateCircularIncludes g =
      if "ROOT" ∈ rootCh g then [circMsg "ROOT"] else [] := by
  rcases h with rfl | ⟨ch, hnd, rfl⟩
  · decide
  · have h0 : validateCircularIncludes [("ROOT", ch)] =
        ((ch.foldl (dfsNode [("ROOT", ch)] 2)
          ⟨["ROOT"], ["ROOT"], []⟩).stack.erase "ROOT",
         (ch.foldl (dfsNode [("ROOT", ch)] 2)
          ⟨["ROOT"], ["ROOT"], []⟩).errors).2 := rfl
    obtain ⟨vis', hfold⟩ := dfsFold_root ch ch ["ROOT"] []
    rw [h0, hfold]
    by_cases hm : "ROOT" ∈ ch
    · rw [if_pos (by simpa [rootCh] using hm)]
      rw [List.count_eq_one_of_mem hnd hm]
      rfl
    · rw [if_neg (by simpa [rootCh] using hm)]
      rw [List.count_eq_zero.mpr hm]
      rfl

/-! ### Include-scan characterization -/

theorem eerror_bind {e a b : Type} (x : e) (k : a → Except e b) :
    ((Except.error x : Except e a) >>= k) = Except.error x := rfl

theorem epure_bind {e a b : Type} (x : a) (k : a → Except e b) :
    ((pure x : Except e a) >>= k) = k x := rfl

theorem prefix_head_eq {p l : List Char} (h : p <+: l) (hp : p ≠ []) :
    l.head? = p.head? := by
  obtain ⟨t, rfl⟩ := h
  cases p with
  | nil => exact absurd rfl hp
  | cons a xs => rfl

/-- A normal `includeLineGo` run adds exactly the non-empty stripped
paths to the graph, and all its error strings start with `"Line "`. -/
theorem includeLineGo_spec (cfg : Config) (n : Nat) :
    ∀ (ps : List (List Char)) (g g' : Graph) (es : List String),
      includeLineGo cfg n ps g = .ok (g', es) →
      g' = pathFoldLine g ps ∧ ∀ e ∈ es, "Line ".data <+: e.data := by
  intro ps
  induction ps with
  | nil =>
    intro g g' es h
    injection h with h1
    injection h1 with hg he
    refine ⟨hg.symm, ?_⟩
    rw [← he]
    simp
  | cons p rest ih =>
    intro g g' es h
    by_cases hp : (pyStrip p).isEmpty
    · simp only [includeLineGo, hp, if_true] at h
      cases hrec : includeLineGo cfg n rest g with
      | error e0 =>
        rw [hrec, eerror_bind] at h
        exact Except.noConfusion h
      | ok pr =>
        rcases pr with ⟨g1, es1⟩
        rw [hrec, ebind_ok] at h
        injection h with h1
        injection h1 with hg he
        obtain ⟨ihg, ihe⟩ := ih g g1 es1 hrec
        have hfold : pathFoldLine g (p :: rest) = pathFoldLine g rest := by
          simp only [pathFoldLine, List.foldl_cons]
          rw [if_pos hp]
        refine ⟨by rw [← hg, ihg, hfold], ?_⟩
        intro e he'
        rw [← he] at he'
        rcases List.mem_cons.mp he' with rfl | hmem
        · rw [String.data_append]
          exact List.prefix_append _ _
        · exact ihe e hmem
    · have hfold : pathFoldLine g (p :: rest) =
          pathFoldLine (addRootPath g (strOf p)) rest := by
        simp only [pathFoldLine, List.foldl_cons]
        rw [if_neg hp]
      have hfin : ∀ (pre : List String),
          (∀ e ∈ pre, "Line ".data <+: e.data) →
          ((includeLineGo cfg n rest (addRootPath g (strOf p)) >>=
            fun d => Except.ok (d.1, pre ++ d.2)) = Except.ok (g', es)) →
          g' = pathFoldLine g (p :: rest) ∧
            ∀ e ∈ es, "Line ".data <+: e.data := by
        intro pre hpre h2
        cases hrec : includeLineGo cfg n rest (addRootPath g (strOf p)) with
        | error e0 =>
          rw [hrec, eerror_bind] at h2
          exact Except.noConfusion h2
        | ok pr =>
          rcases pr with ⟨g1, es1⟩
          rw [hrec, ebind_ok] at h2
          injection h2 with h3
          injection h3 with hg he
          obtain ⟨ihg, ihe⟩ := ih (addRootPath g (strOf p)) g1 es1 hrec
          refine ⟨by rw [← hg, ihg, hfold], ?_⟩
          intro e he'
          rw [← he] at he'
          rcases List.mem_append.mp he' with hmem | hmem
          · exact hpre e hmem
          · exact ihe e hmem
      rcases hbs : cfg.blob_service with _ | f
      · rcases hst : cfg.source_type with _ | st <;>
          · simp only [includeLineGo, hp, Bool.false_eq_true, if_false, hbs,
              hst, epure_bind] at h
            exact hfin [] (by simp) h
      · rcases hst : cfg.source_type with _ | st
        · simp only [includeLineGo, hp, Bool.false_eq_true, if_false, hbs,
            hst, epure_bind] at h
          exact hfin [] (by simp) h
        · by_cases hempty : st = ""
          · simp only [includeLineGo, hp, Bool.false_eq_true, if_false, hbs,
              hst, hempty, if_true, epure_bind] at h
            exact hfin [] (by simp) h
          · cases hora : f (convertIncludeToBlobPath st (strOf p)) with
            | error e0 =>
              simp only [includeLineGo, hp, Bool.false_eq_true, if_false, hbs,
                hst, hempty, hora, eerror_bind] at h
              exact Except.noConfusion h
            | ok b =>
              simp only [includeLineGo, hp, Bool.false_eq_true, if_false, hbs,
                hst, hempty, hora, ebind_ok, epure_bind] at h
              refine hfin _ ?_ h
              intro e he'
              by_cases hb : b = true
              · rw [hb] at he'
                simp at he'
              · rw [if_neg (by simp [hb])] at he'
                rcases List.mem_singleton.mp he' with rfl
                rw [String.data_append]
                exact List.prefix_append _ _

/-- A normal include scan produces exactly `scanGraph` and only
`"Line "`-prefixed errors. -/
theorem includesScanGo_spec (cfg : Config) :
    ∀ (ls : List (Nat × List Char)) (g g' : Graph) (es : List String),
      includesScanGo cfg ls g = .ok (g', es) →
      g' = scanGraph ls g ∧ ∀ e ∈ es, "Line ".data <+: e.data := by
  intro ls
  induction ls with
  | nil =>
    intro g g' es h
    injection h with h1
    injection h1 with hg he
    refine ⟨hg.symm, ?_⟩
    rw [← he]
    simp
  | cons nl rest ih =>
    intro g g' es h
    simp only [includesScanGo] at h
    cases h1 : includeLineGo cfg nl.1 (includeMatches nl.2) g with
    | error e0 =>
      rw [h1, eerror_bind] at h
      exact Except.noConfusion h
    | ok pr1 =>
      rcases pr1 with ⟨g1, es1⟩
      rw [h1, ebind_ok] at h
      cases h2 : includesScanGo cfg rest g1 with
      | error e0 =>
        rw [h2, eerror_bind] at h
        exact Except.noConfusion h
      | ok pr2 =>
        rcases pr2 with ⟨g2, es2⟩
        rw [h2, ebind_ok] at h
        injection h with h3
        injection h3 with hg he
        obtain ⟨ig1, ie1⟩ := includeLineGo_spec cfg nl.1 _ g g1 es1 h1
        obtain ⟨ig2, ie2⟩ := ih g1 g2 es2 h2
        have hsg : scanGraph (nl :: rest) g =
            scanGraph rest (pathFoldLine g (includeMatches nl.2)) := rfl
        refine ⟨by rw [← hg, ig2, ig1, hsg], ?_⟩
        intro e he'
        rw [← he] at he'
        rcases List.mem_append.mp he' with hmem | hmem
        · exact ie1 e hmem
        · exact ie2 e hmem

/-! ### C9: the circular-dependency error -/

/-- C9: on a fresh validator instance (empty include graph), a normally
returning `_validate_includes` reports a circular-include-dependency
error exactly when some discovered include path is the literal string
`"ROOT"`; the one-level graph admits no other cycle. -/
theorem circular_error_iff_root_path (cfg : Config) (lines : List (List Char))
    (g' : Graph) (errs : List String)
    (h : validateIncludes cfg [] lines = .ok (g', errs)) :
    ((∃ e ∈ errs, "Circular include dependency detected: ".data <+: e.data) ↔
      "ROOT" ∈ discoveredPaths lines) := by
  cases hscan : includesScanGo cfg (List.enumFrom 1 lines) [] with
  | error e0 =>
    unfold validateIncludes at h
    rw [hscan, eerror_bind] at h
    exact Except.noConfusion h
  | ok pr =>
    rcases pr with ⟨g1, es1⟩
    unfold validateIncludes at h
    rw [hscan, ebind_ok] at h
    injection h with h1
    injection h1 with hg he
    obtain ⟨hgeq, hpre⟩ := includesScanGo_spec cfg _ [] g1 es1 hscan
    obtain ⟨hwf1, hch⟩ := scanGraph_wf (List.enumFrom 1 lines) [] (Or.inl rfl)
    rw [← hgeq] at hwf1 hch
    rw [discoveredPathsLS_enum] at hch
    have hmem : ("ROOT" ∈ rootCh g1) ↔ "ROOT" ∈ discoveredPaths lines := by
      rw [hch, mem_addChildren]
      simp [rootCh, graphGet]
    have hcirc := circ_of_wf g1 hwf1
    constructor
    · rintro ⟨e, hemem, hepre⟩
      rw [← he] at hemem
      rcases List.mem_append.mp hemem with hin | hin
      · exfalso
        have hl := hpre e hin
        have hheadL : e.data.head? = some 'L' :=
          (prefix_head_eq hl (by decide)).symm ▸ rfl
        have hheadC : e.data.head? = some 'C' :=
          (prefix_head_eq hepre (by decide)).symm ▸ rfl
        rw [hheadL] at hheadC
        exact absurd (Option.some.inj hheadC) (by decide)
      · rw [hcirc] at hin
        by_cases hr : "ROOT" ∈ rootCh g1
        · exact hmem.mp hr
        · rw [if_neg hr] at hin
          simp at hin
    · intro hd
      refine ⟨circMsg "ROOT", ?_, ?_⟩
      · rw [← he, hcirc, if_pos (hmem.mpr hd)]
        simp
      · show _ <+: ("Circular include dependency detected: " ++ "ROOT").data
        rw [String.data_append]
        exact List.prefix_append _ _

set_option maxHeartbeats 1000000 in
/-- Witness for `circular_error_iff_root_path`: the template
`\x7b% include 'ROOT' %\x7d` discovers the path `ROOT` and triggers the
circular error. -/
theorem circular_error_iff_root_path_witness :
    ((∃ e ∈ ["Circular include dependency detected: " ++ "ROOT"],
        "Circular include dependency detected: ".data <+: e.data) ↔
      "ROOT" ∈ discoveredPaths (splitlines "\x7b% include 'ROOT' %\x7d".data)) :=
  circular_error_iff_root_path cfgDefault
    (splitlines "\x7b% include 'ROOT' %\x7d".data)
    [("ROOT", ["ROOT"])] ["Circular include dependency detected: " ++ "ROOT"]
    (by decide)

/-! ### C6: idempotence of `validate`

`validate` resets `errors` and `warnings` but not `include_graph`; a
second run on the same text re-inserts the same paths into the same
sets, so the graph — and with it every diagnostic — is unchanged. -/

theorem emap_snd_bind (A : Except String (Graph × List String))
    (f : List String → List String) :
    ((A >>= fun d => Except.ok (d.1, f d.2)).map Prod.snd) =
      (A.map Prod.snd).map f := by
  cases A <;> rfl

/-- The include scan's error component does not depend on the incoming
graph (one line). -/
theorem includeLineGo_errs_indep (cfg : Config) (n : Nat) :
    ∀ (ps : List (List Char)) (g h : Graph),
      (includeLineGo cfg n ps g).map Prod.snd =
      (includeLineGo cfg n ps h).map Prod.snd := by
  intro ps
  induction ps with
  | nil => intro g h; rfl
  | cons p rest ih =>
    intro g h
    by_cases hp : (pyStrip p).isEmpty
    · simp only [includeLineGo, hp, if_true]
      rw [emap_snd_bind, emap_snd_bind, ih g h]
    · rcases hbs : cfg.blob_service with _ | f
      · rcases hst : cfg.source_type with _ | st <;>
          · simp only [includeLineGo, hp, Bool.false_eq_true, if_false, hbs,
              hst, epure_bind]
            rw [emap_snd_bind, emap_snd_bind, ih _ _]
      · rcases hst : cfg.source_type with _ | st
        · simp only [includeLineGo, hp, Bool.false_eq_true, if_false, hbs,
            hst, epure_bind]
          rw [emap_snd_bind, emap_snd_bind, ih _ _]
        · by_cases hempty : st = ""
          · simp only [includeLineGo, hp, Bool.false_eq_true, if_false, hbs,
              hst, hempty, if_true, epure_bind]
            rw [emap_snd_bind, emap_snd_bind, ih _ _]
          · cases hora : f (convertIncludeToBlobPath st (strOf p)) with
            | error e0 =>
              simp only [includeLineGo, hp, Bool.false_eq_true, if_false, hbs,
                hst, hempty, hora, eerror_bind]
            | ok b =>
              simp only [includeLineGo, hp, Bool.false_eq_true, if_false, hbs,
                hst, hempty, hora, ebind_ok, epure_bind]
              rw [emap_snd_bind, emap_snd_bind, ih _ _]

/-- The include scan's error component does not depend on the incoming
graph. -/
theorem includesScanGo_errs_indep (cfg : Config) :
    ∀ (ls : List (Nat × List Char)) (g h : Graph),
      (includesScanGo cfg ls g).map Prod.snd =
      (includesScanGo cfg ls h).map Prod.snd := by
  intro ls
  induction ls with
  | nil => intro g h; rfl
  | cons nl rest ih =>
    intro g h
    have hline := includeLineGo_errs_indep cfg nl.1 (includeMatches nl.2) g h
    simp only [includesScanGo]
    cases hA : includeLineGo cfg nl.1 (includeMatches nl.2) g with
    | error e0 =>
      cases hB : includeLineGo cfg nl.1 (includeMatches nl.2) h with
      | error e1 =>
        rw [hA, hB] at hline
        rw [eerror_bind, eerror_bind]
        injection hline with h1
        rw [h1]
      | ok prB =>
        rw [hA, hB] at hline
        exact absurd hline (by simp [Except.map])
    | ok prA =>
      rcases prA with ⟨gA, esA⟩
      cases hB : includeLineGo cfg nl.1 (includeMatches nl.2) h with
      | error e1 =>
        rw [hA, hB] at hline
        exact absurd hline (by simp [Except.map])
      | ok prB =>
        rcases prB with ⟨gB, esB⟩
        rw [hA, hB] at hline
        have hes : esA = esB := by
          simpa [Except.map] using hline
        rw [ebind_ok, ebind_ok, emap_snd_bind, emap_snd_bind, ih gA gB, hes]

/-- Destructuring of a normal `_validate_includes` run. -/
theorem validateIncludes_destruct (cfg : Config) (g : Graph)
    (lines : List (List Char)) (G : Graph) (E : List String)
    (h : validateIncludes cfg g lines = .ok (G, E)) :
    ∃ es, includesScanGo cfg (List.enumFrom 1 lines) g = .ok (G, es) ∧
      E = es ++ validateCircularIncludes G := by
  unfold validateIncludes at h
  cases hs : includesScanGo cfg (List.enumFrom 1 lines) g with
  | error e0 =>
    rw [hs, eerror_bind] at h
    exact Except.noConfusion h
  | ok pr =>
    rcases pr with ⟨G0, es0⟩
    rw [hs, ebind_ok] at h
    injection h with h1
    injection h1 with hg he
    exact ⟨es0, by rw [← hg], by rw [← he, ← hg]⟩

set_option maxHeartbeats 1000000 in
/-- C6: on one validator instance (hence a reachable include graph),
two consecutive `validate` calls with the same configuration and
template text that both return normally produce identical results. -/
theorem validate_idempotent (cfg : Config) (g : Graph) (t : String)
    (hwf : GraphWF g) (g1 g2 : Graph) (r1 r2 : VResult)
    (h1 : validate cfg g t = .ok (g1, r1))
    (h2 : validate cfg g1 t = .ok (g2, r2)) : r1 = r2 := by
  simp only [validate] at h1 h2
  rcases hv1 : validateIncludes cfg g (splitlines t.data) with e | p1
  · rw [hv1] at h1
    exact Except.noConfusion h1
  · rcases p1 with ⟨G1, E1⟩
    rw [hv1] at h1
    injection h1 with h1'
    rw [Prod.mk.injEq] at h1'
    obtain ⟨hg1, hr1⟩ := h1'
    subst hg1
    subst hr1
    rcases hv2 : validateIncludes cfg G1 (splitlines t.data) with e | p2
    · rw [hv2] at h2
      exact Except.noConfusion h2
    · rcases p2 with ⟨G2, E2⟩
      rw [hv2] at h2
      injection h2 with h2'
      rw [Prod.mk.injEq] at h2'
      obtain ⟨hg2, hr2⟩ := h2'
      subst hg2
      subst hr2
      obtain ⟨es1, hscan1, hE1⟩ := validateIncludes_destruct _ _ _ _ _ hv1
      obtain ⟨es2, hscan2, hE2⟩ := validateIncludes_destruct _ _ _ _ _ hv2
      obtain ⟨hG1, -⟩ := includesScanGo_spec cfg _ g G1 es1 hscan1
      obtain ⟨hG2, -⟩ := includesScanGo_spec cfg _ G1 G2 es2 hscan2
      have hes : es1 = es2 := by
        have hmap := includesScanGo_errs_indep cfg
          (List.enumFrom 1 (splitlines t.data)) g G1
        rw [hscan1, hscan2] at hmap
        simpa [Except.map] using hmap
      have hcirc : validateCircularIncludes G1 = validateCircularIncludes G2 := by
        obtain ⟨hwf1, hch1⟩ :=
          scanGraph_wf (List.enumFrom 1 (splitlines t.data)) g hwf
        rw [← hG1] at hwf1 hch1
        obtain ⟨hwf2, hch2⟩ :=
          scanGraph_wf (List.enumFrom 1 (splitlines t.data)) G1 hwf1
        rw [← hG2] at hwf2 hch2
        have hroot : rootCh G2 = rootCh G1 := by
          rw [hch2, hch1, addChildren_idem]
        rw [circ_of_wf _ hwf1, circ_of_wf _ hwf2, hroot]
      rw [hE1, hE2, hes, hcirc]

set_option maxHeartbeats 2000000 in
/-- Witness for `validate_idempotent`: two consecutive runs on a fresh
instance over an include-bearing template agree. -/
theorem validate_idempotent_witness :
    (⟨true, [], [resourceTypeWarning]⟩ : VResult) =
      (⟨true, [], [resourceTypeWarning]⟩ : VResult) :=
  validate_idempotent cfgDefault [] "\x7b% include 'A' %\x7d" (Or.inl rfl)
    [("ROOT", ["A"])] [("ROOT", ["A"])]
    ⟨true, [], [resourceTypeWarning]⟩ ⟨true, [], [resourceTypeWarning]⟩
    (by decide) (by decide)

/-! ### C10: the `elsif` spelling is always rejected -/

theorem splitlines_rn (cs : List Char) :
    splitlines ('\r' :: '\n' :: cs) = [] :: splitlines cs := rfl

theorem splitlines_r (c : Char) (cs : List Char) (h : c ≠ '\n') :
    splitlines ('\r' :: c :: cs) = [] :: splitlines (c :: cs) := by
  rw [splitlines.eq_def]
  split
  · rename_i heq
    simp at heq
  · rename_i heq
    rw [List.cons.injEq, List.cons.injEq] at heq
    exact absurd heq.2.1 h
  · rename_i heq
    rw [List.cons.injEq] at heq
    rw [← heq.2]
  · rename_i g heq
    rw [List.cons.injEq] at heq
    exact absurd heq.1.symm g

theorem splitlines_c (c : Char) (cs : List Char) (h : c ≠ '\r') :
    splitlines (c :: cs) =
      (if isLineBreak c then [] :: splitlines cs
       else match splitlines cs with
         | [] => [[c]]
         | l :: ls => (c :: l) :: ls) := by
  rw [splitlines.eq_def]
  split
  · rename_i heq
    simp at heq
  · rename_i heq
    rw [List.cons.injEq] at heq
    exact absurd heq.1 h
  · rename_i heq
    rw [List.cons.injEq] at heq
    exact absurd heq.1 h
  · rename_i g heq
    rw [List.cons.injEq] at heq
    obtain ⟨h1, h2⟩ := heq
    subst h1
    subst h2
    rfl

theorem tagScanGo_open (n : Nat) (rest : List Char) :
    tagScanGo (n+1) ('\x7b' :: '%' :: rest) =
      (match tryTagMatch rest with
       | some (tok, matched, rest') =>
         (tok, '\x7b' :: '%' :: matched) :: tagScanGo n rest'
       | none => tagScanGo n ('%' :: rest)) := rfl

theorem tagScanGo_skip (n : Nat) (c : Char) (cs : List Char)
    (h : c = '\x7b' → cs.head? ≠ some '%') :
    tagScanGo (n+1) (c :: cs) = tagScanGo n cs := by
  rw [tagScanGo.eq_def]
  split
  · rename_i heq
    simp at heq
  · rename_i heq1 heq2
    simp at heq1
  · rename_i heq1 heq2
    rw [List.cons.injEq] at heq2
    exact absurd (by rw [heq2.2]; rfl) (h heq2.1)
  · rename_i g heq1 heq2
    rw [List.cons.injEq] at heq2
    rw [← heq2.2]
    rw [Nat.succ.injEq] at heq1
    rw [heq1]

/-- A nonempty break-free prefix of the text is a prefix of its first
line. -/
theorem noBreak_prefix_first_line :
    ∀ (cs p : List Char), p ≠ [] → (∀ c ∈ p, isLineBreak c = false) →
      p <+: cs → ∃ l0 ls, splitlines cs = l0 :: ls ∧ p <+: l0 := by
  intro cs
  induction cs with
  | nil =>
    intro p hne hnb hp
    exact absurd (List.prefix_nil.mp hp) hne
  | cons c cs ih =>
    intro p hne hnb hp
    rcases p with _ | ⟨pc, p'⟩
    · exact absurd rfl hne
    obtain ⟨hpc, hp'⟩ := List.cons_prefix_cons.mp hp
    subst hpc
    have hbr : isLineBreak pc = false := hnb pc (List.mem_cons_self _ _)
    have hcr : pc ≠ '\r' := by
      intro he
      rw [he] at hbr
      exact absurd hbr (by decide)
    rw [splitlines_c pc cs hcr, if_neg (by rw [hbr]; simp)]
    rcases hp'e : p' with _ | ⟨q, p''⟩
    · cases hsc : splitlines cs with
      | nil => exact ⟨[pc], [], rfl, List.prefix_refl _⟩
      | cons l0 ls =>
        exact ⟨pc :: l0, ls, rfl,
          List.cons_prefix_cons.mpr ⟨rfl, List.nil_prefix⟩⟩
    · obtain ⟨l0, ls, hsl, hpl⟩ := ih p' (by rw [hp'e]; simp)
        (fun d hd => hnb d (List.mem_cons_of_mem _ hd)) (hp'e ▸ hp')
      rw [hsl]
      exact ⟨pc :: l0, ls, rfl,
        List.cons_prefix_cons.mpr ⟨rfl, hp'e ▸ hpl⟩⟩

/-- Every line of `cs` survives (possibly extended at the front) as a
line of `c :: cs`. -/
theorem tail_lines_embed :
    ∀ (c : Char) (cs l : List Char), l ∈ splitlines cs →
      ∃ l2 ∈ splitlines (c :: cs), l <:+: l2 := by
  intro c cs l hl
  by_cases hcr : c = '\r'
  · subst hcr
    rcases cs with _ | ⟨c2, cs'⟩
    · simp [splitlines] at hl
    · by_cases h2 : c2 = '\n'
      · subst h2
        rw [splitlines_rn]
        have : splitlines ('\n' :: cs') = [] :: splitlines cs' := by
          rw [splitlines_c _ _ (by decide), if_pos (by decide)]
        rw [this] at hl
        exact ⟨l, hl, List.infix_refl _⟩
      · rw [splitlines_r _ _ h2]
        exact ⟨l, List.mem_cons_of_mem _ hl, List.infix_refl _⟩
  · rw [splitlines_c _ _ hcr]
    by_cases hbr : isLineBreak c = true
    · rw [if_pos hbr]
      exact ⟨l, List.mem_cons_of_mem _ hl, List.infix_refl _⟩
    · rw [if_neg hbr]
      cases hsc : splitlines cs with
      | nil => rw [hsc] at hl; simp at hl
      | cons l0 ls =>
        rw [hsc] at hl
        rcases List.mem_cons.mp hl with he | hm
        · subst he
          exact ⟨c :: l, List.mem_cons_self _ _,
            (List.suffix_cons c l).isInfix⟩
        · exact ⟨l, List.mem_cons_of_mem _ hm, List.infix_refl _⟩

/-- A nonempty break-free infix of the text is an infix of one of its
lines. -/
theorem splitlines_infix (p : List Char) (hne : p ≠ [])
    (hnb : ∀ c ∈ p, isLineBreak c = false) :
    ∀ cs, p <:+: cs → ∃ l ∈ splitlines cs, p <:+: l := by
  intro cs
  induction cs with
  | nil =>
    intro h
    exact absurd (List.infix_nil.mp h) hne
  | cons c cs ih =>
    intro h
    rcases List.infix_cons_iff.mp h with hpre | hinf
    · obtain ⟨l0, ls, hsl, hp0⟩ := noBreak_prefix_first_line (c :: cs) p hne hnb hpre
      exact ⟨l0, by rw [hsl]; exact List.mem_cons_self _ _, hp0.isInfix⟩
    · obtain ⟨l, hl, hpl⟩ := ih hinf
      obtain ⟨l2, hl2, hll2⟩ := tail_lines_embed c cs l hl
      exact ⟨l2, hl2, hpl.trans hll2⟩

/-- An infix that starts with `\x7b` and lies in `M ++ w` with no `\x7b`
in `M` lies in `w`. -/
theorem infix_of_brace_head (p : List Char) (hh : p.head? = some '\x7b') :
    ∀ (M w : List Char), '\x7b' ∉ M → p <:+: M ++ w → p <:+: w := by
  intro M
  induction M with
  | nil => exact fun w _ h => by simpa using h
  | cons m M ih =>
    intro w hM h
    have hne : p ≠ [] := by
      intro he
      rw [he] at hh
      simp at hh
    rcases List.infix_cons_iff.mp (by simpa using h) with hpre | hinf
    · exfalso
      have := prefix_head_eq hpre hne
      rw [hh] at this
      simp at this
      exact hM (this ▸ List.mem_cons_self _ _)
    · exact ih w (fun hm => hM (List.mem_cons_of_mem _ hm)) hinf

/-- A failed tag-tail match means the remainder is all whitespace. -/
theorem tryTagMatch_none (s : List Char) (h : tryTagMatch s = none) :
    ∀ c ∈ s, isPySpace c = true := by
  rcases he : s.dropWhile isPySpace with _ | ⟨c, t⟩
  · exact fun c hc => List.dropWhile_eq_nil_iff.mp he c hc
  · exfalso
    rw [tryTagMatch, he] at h
    split at h
    · rename_i heq
      exact List.noConfusion heq
    · rename_i r2 t2 heq
      rcases hr : List.dropWhile isPySpace t2 with _ | ⟨d, u⟩ <;>
        simp [hr] at h
    · exact Option.noConfusion h

/-- A successful tag-tail match decomposes the input as the consumed
text followed by the remainder, and every consumed character is
whitespace, a dash, or part of the captured token. -/
theorem tryTagMatch_decomp (s tok M rest2 : List Char)
    (h : tryTagMatch s = some (tok, M, rest2)) :
    s = M ++ rest2 ∧ ∀ c ∈ M, isPySpace c = true ∨ c = '-' ∨ c ∈ tok := by
  rw [tryTagMatch] at h
  rcases he : s.dropWhile isPySpace with _ | ⟨c, t⟩ <;> rw [he] at h
  · exact Option.noConfusion h
  split at h
  · rename_i heq
    exact List.noConfusion heq
  · rename_i t2 heq
    injection heq with hc ht
    subst ht
    subst hc
    rcases hr : List.dropWhile isPySpace t with _ | ⟨d, u⟩ <;>
      simp only [hr] at h <;>
      simp only [Option.some.injEq, Prod.mk.injEq] at h <;>
      obtain ⟨h1, h2, h3⟩ := h <;> subst h1 <;> subst h2 <;> subst h3
    · constructor
      · have hs := List.takeWhile_append_dropWhile (p := isPySpace) (l := s)
        rw [he] at hs
        rw [List.append_assoc]
        exact hs.symm
      · intro c hc
        rcases List.mem_append.mp hc with hsp | hd
        · exact Or.inl (List.mem_takeWhile_imp hsp)
        · rcases List.mem_singleton.mp hd with rfl
          exact Or.inr (Or.inl rfl)
    · constructor
      · have hs := List.takeWhile_append_dropWhile (p := isPySpace) (l := s)
        rw [he] at hs
        have ht2 := List.takeWhile_append_dropWhile (p := isPySpace) (l := t)
        have hr2 := List.takeWhile_append_dropWhile
          (p := fun c => ¬ isPySpace c) (l := List.dropWhile isPySpace t)
        rw [hr] at ht2
        conv_lhs => rw [← hs, ← ht2]
        rw [hr] at hr2
        conv_lhs => rw [← hr2]
        simp [List.append_assoc, hr]
      · intro c hc
        simp only [List.mem_append, List.mem_cons] at hc
        rcases hc with hsp | hd | hts | htok
        · exact Or.inl (List.mem_takeWhile_imp hsp)
        · exact Or.inr (Or.inl hd)
        · exact Or.inl (List.mem_takeWhile_imp hts)
        · exact Or.inr (Or.inr htok)
  · simp only [Option.some.injEq, Prod.mk.injEq] at h
    obtain ⟨h1, h2, h3⟩ := h
    subst h1
    subst h2
    subst h3
    constructor
    · have hs := List.takeWhile_append_dropWhile (p := isPySpace) (l := s)
      rw [he] at hs
      have hr2 := List.takeWhile_append_dropWhile
        (p := fun c => ¬ isPySpace c) (l := c :: t)
      conv_lhs => rw [← hs, ← hr2]
      simp [List.append_assoc]
    · intro d hd
      rcases List.mem_append.mp hd with hsp | htok
      · exact Or.inl (List.mem_takeWhile_imp hsp)
      · exact Or.inr (Or.inr htok)

/-- No valid tag keyword contains an opening brace. -/
theorem keywords_no_brace : ∀ s ∈ VALID_TAG_KEYWORDS, '\x7b' ∉ s.data := by
  decide

theorem strOf_data (cs : List Char) : (strOf cs).data = cs := rfl

/-- The tag-tail match on the text that follows `\x7b%` in
`\x7b% elsif ...` captures exactly the token `elsif`. -/
theorem tryTagMatch_elsif (v : List Char) :
    tryTagMatch (' ' :: 'e' :: 'l' :: 's' :: 'i' :: 'f' :: ' ' :: v) =
      some (['e','l','s','i','f'], [' ','e','l','s','i','f'], ' ' :: v) := rfl

/-- Any text containing `\x7b% elsif ` yields some scanned tag token
outside the keyword allow-list. -/
theorem tagScanGo_elsif :
    ∀ (fuel : Nat) (cs : List Char), cs.length ≤ fuel →
      ("\x7b% elsif ".data <:+: cs) →
      ∃ m ∈ tagScanGo fuel cs,
        VALID_TAG_KEYWORDS.contains (strOf m.1) = false := by
  intro fuel
  induction fuel with
  | zero =>
    intro cs hlen hinf
    have hcs : cs = [] := List.length_eq_zero.mp (Nat.le_zero.mp hlen)
    subst hcs
    exact absurd (List.infix_nil.mp hinf) (by decide)
  | succ fuel ih =>
    intro cs hlen hinf
    rcases cs with _ | ⟨c, cs1⟩
    · exact absurd (List.infix_nil.mp hinf) (by decide)
    rcases cs1 with _ | ⟨c2, cs2⟩
    · have hl := hinf.length_le
      simp at hl
    by_cases hop : c = '\x7b' ∧ c2 = '%'
    · obtain ⟨rfl, rfl⟩ := hop
      rw [tagScanGo_open]
      rcases List.infix_cons_iff.mp hinf with hpre | hinf2
      · obtain ⟨v, hv⟩ := hpre
        have hv2 : '\x7b' :: '%' :: ' ' :: 'e' :: 'l' :: 's' :: 'i' :: 'f' :: (' ' :: v) =
            '\x7b' :: '%' :: cs2 := by simpa using hv
        injection hv2 with h1 hv3
        injection hv3 with h2 hv4
        subst hv4
        rw [tryTagMatch_elsif]
        exact ⟨(['e','l','s','i','f'],
          '\x7b' :: '%' :: [' ','e','l','s','i','f']),
          List.mem_cons_self _ _, by decide⟩
      · rcases List.infix_cons_iff.mp hinf2 with hpre2 | hinf3
        · have hh := prefix_head_eq hpre2 (by decide)
          simp at hh
        · cases htm : tryTagMatch cs2 with
          | none =>
            exfalso
            have hall := tryTagMatch_none cs2 htm
            have hmem : '\x7b' ∈ cs2 := hinf3.subset (by decide)
            exact absurd (hall _ hmem) (by decide)
          | some tm =>
            rcases tm with ⟨tok, M2, rest2⟩
            by_cases hbad : VALID_TAG_KEYWORDS.contains (strOf tok) = false
            · exact ⟨(tok, '\x7b' :: '%' :: M2), List.mem_cons_self _ _, hbad⟩
            · have hcont : VALID_TAG_KEYWORDS.contains (strOf tok) = true := by
                cases hx : VALID_TAG_KEYWORDS.contains (strOf tok) with
                | false => exact absurd hx hbad
                | true => rfl
              have hkmem : strOf tok ∈ VALID_TAG_KEYWORDS := by
                rw [contains_eq_mem] at hcont
                exact hcont
              have hnb : '\x7b' ∉ tok := by
                intro hbt
                exact keywords_no_brace _ hkmem (by rw [strOf_data]; exact hbt)
              obtain ⟨hdec, hmemM⟩ := tryTagMatch_decomp cs2 tok M2 rest2 htm
              have hnbM : '\x7b' ∉ M2 := by
                intro hm
                rcases hmemM _ hm with hsp | hdash | htk
                · exact absurd hsp (by decide)
                · exact absurd hdash (by decide)
                · exact hnb htk
              have hinf4 : "\x7b% elsif ".data <:+: rest2 :=
                infix_of_brace_head _ (by decide) M2 rest2 hnbM (hdec ▸ hinf3)
              have hlen2 : rest2.length ≤ fuel := by
                have hsplit : cs2.length = M2.length + rest2.length := by
                  rw [hdec]
                  simp
                simp only [List.length_cons] at hlen
                omega
              obtain ⟨m, hm, hbadm⟩ := ih rest2 hlen2 hinf4
              exact ⟨m, List.mem_cons_of_mem _ hm, hbadm⟩
    · have hskip : tagScanGo (fuel+1) (c::c2:: cs2) = tagScanGo fuel (c2:: cs2) := by
        apply tagScanGo_skip
        intro hc hhd
        apply hop
        refine ⟨hc, ?_⟩
        injection hhd
      rw [hskip]
      rcases List.infix_cons_iff.mp hinf with hpre | hinf2
      · exfalso
        obtain ⟨v, hv⟩ := hpre
        have hv2 : '\x7b' :: '%' :: (' ' :: 'e' :: 'l' :: 's' :: 'i' :: 'f' :: ' ' :: v) =
            c::c2:: cs2 := by simpa using hv
        injection hv2 with h1 hv3
        injection hv3 with h2 hv4
        exact hop ⟨h1.symm, h2.symm⟩
      · apply ih (c2:: cs2) ?_ hinf2
        simp only [List.length_cons] at hlen ⊢
        omega

/-- A line containing `\x7b% elsif ` produces at least one tag-keyword
error. -/
theorem tagKeywordLineErrors_elsif (n : Nat) (line : List Char)
    (h : "\x7b% elsif ".data <:+: line) :
    tagKeywordLineErrors n line ≠ [] := by
  obtain ⟨m, hm, hbad⟩ := tagScanGo_elsif line.length line le_rfl h
  intro hnil
  rw [tagKeywordLineErrors] at hnil
  have hbody := List.flatMap_eq_nil_iff.mp hnil m hm
  by_cases hq : isQuoteChar (m.1.headD ' ') = true
  · rw [if_pos hq] at hbody
    exact List.noConfusion hbody
  · rw [if_neg hq, if_pos (by rw [hbad]; simp)] at hbody
    exact List.noConfusion hbody

/-- Every member of a list appears in its enumeration. -/
theorem mem_enumFrom_of_mem {α : Type} (l : List α) (x : α) :
    ∀ k, x ∈ l → ∃ n, (n, x) ∈ List.enumFrom k l := by
  induction l with
  | nil =>
    intro k h
    simp at h
  | cons a l ih =>
    intro k h
    rcases List.mem_cons.mp h with rfl | hm
    · exact ⟨k, List.mem_cons_self _ _⟩
    · obtain ⟨n, hn⟩ := ih (k+1) hm
      exact ⟨n, List.mem_cons_of_mem _ hn⟩

/-- If some line contains `\x7b% elsif `, the tag-keyword pass errors. -/
theorem validateTagKeywords_elsif (lines : List (List Char))
    (line : List Char) (hl : line ∈ lines)
    (h : "\x7b% elsif ".data <:+: line) :
    validateTagKeywords lines ≠ [] := by
  intro hnil
  rw [validateTagKeywords] at hnil
  obtain ⟨n, hn⟩ := mem_enumFrom_of_mem lines line 1 hl
  exact tagKeywordLineErrors_elsif n line h
    (List.flatMap_eq_nil_iff.mp hnil (n, line) hn)

/-- C10: the spelling `elsif` is not in the keyword allow-list (the
validator accepts only `elseif`), so every template containing
`\x7b% elsif ...` that validates normally comes back `valid = false`
with an unknown-tag-keyword (or string-literal-tag) error. -/
theorem elsif_tag_always_invalid (cfg : Config) (g : Graph) (t : String)
    (g2 : Graph) (r : VResult)
    (hsub : "\x7b% elsif ".data <:+: t.data)
    (h : validate cfg g t = .ok (g2, r)) : r.valid = false := by
  obtain ⟨line, hline, hinf⟩ := splitlines_infix "\x7b% elsif ".data
    (by decide) (by decide) t.data hsub
  simp only [validate] at h
  rcases hv : validateIncludes cfg g (splitlines t.data) with e | p
  · rw [hv] at h
    exact Except.noConfusion h
  · rcases p with ⟨G1, E1⟩
    rw [hv] at h
    injection h with h1
    rw [Prod.mk.injEq] at h1
    obtain ⟨hg, hr⟩ := h1
    subst hr
    have hne : validateErrs cfg t.data (splitlines t.data) E1 ≠ [] := by
      intro hz
      rw [validateErrs] at hz
      simp only [List.append_eq_nil, and_assoc] at hz
      exact validateTagKeywords_elsif _ line hline hinf hz.2.2.2.2.2.1
    cases hE : validateErrs cfg t.data (splitlines t.data) E1 with
    | nil => exact absurd hE hne
    | cons a l => rfl

set_option maxHeartbeats 2000000 in
/-- Witness for `elsif_tag_always_invalid` at the template
`\x7b% elsif x %\x7d` under the default configuration. -/
theorem elsif_tag_always_invalid_witness :
    (VResult.mk false
      ["Unknown tag keyword 'elsif' at line 1. Tags must start with valid Liquid keywords (assign, include, if, for, etc.)"]
      [resourceTypeWarning]).valid = false :=
  elsif_tag_always_invalid cfgDefault [] "\x7b% elsif x %\x7d" []
    (VResult.mk false
      ["Unknown tag keyword 'elsif' at line 1. Tags must start with valid Liquid keywords (assign, include, if, for, etc.)"]
      [resourceTypeWarning])
    (by decide) (by decide)

end LiquidValidator
